import Mathlib

/-!
# Verification of the pyschema schema/record serialization core

This file is a shallow embedding, in Lean 4, of the core data model and
(de)serialization engine of the `pyschema` library
(`pyschema/core.py`, `pyschema/types.py`, `pyschema/source_generation.py`),
together with proofs and refutations of the specified properties.

Modelling conventions:
* Python values are modelled by the inductive type `PyVal`.  Python 2
  distinguishes byte strings (`str`) from text strings (`unicode`); we model
  the former as `PyVal.vbytes` (a list of byte values) and the latter as
  `PyVal.vstr` (a Lean `String`).  `datetime.date` / `datetime.datetime`
  values are modelled by their components.  Floats are modelled as exact
  rationals (the claims under study never exercise rounding or NaN).
* Fallible Python code (code that may raise) is modelled with
  `Except PyErr`.  `PyErr` records the exception class that is raised.
* Python dictionaries are modelled as association lists with the usual
  key-lookup semantics; mutation of a dictionary is modelled by explicit
  state passing (the function returns the updated dictionary).
* `copy.deepcopy` is the identity on our pure values.
-/

set_option maxHeartbeats 1000000

namespace Pyschema

/-- Exception classes raised by the modelled code.  `parseError` is
pyschema's own `ParseError`; the rest are Python built-ins.
(`UnicodeEncodeError`, `UnicodeDecodeError` and `binascii.Error` are
subclasses of `ValueError` and are modelled as `valueError`.) -/
inductive PyErr where
  | parseError
  | valueError
  | typeError
  | attributeError
  | keyError
  deriving DecidableEq, Repr

/-- Model of Python run-time values, as used by the pyschema core.
`vstr` is a `unicode` text string, `vbytes` a Python 2 `str` byte string,
`vrecord name fields` a `Record` instance (its class name together with its
per-field attribute values in declaration order), and `vnodefault` the
`NO_DEFAULT` sentinel object. -/
inductive PyVal where
  | vnone
  | vbool (b : Bool)
  | vint (n : Int)
  | vfloat (q : Rat)
  | vstr (s : String)
  | vbytes (bs : List Nat)
  | vdate (y m d : Nat)
  | vdatetime (y mo d h mi s us : Nat)
  | vlist (xs : List PyVal)
  | vdict (entries : List (String × PyVal))
  | vrecord (name : String) (fields : List (String × PyVal))
  | vnodefault
  deriving Repr

/-- Key lookup in an association list (Python dictionary access /
`getattr`): first binding of the key wins. -/
def lookupVal (l : List (String × PyVal)) (k : String) : Option PyVal :=
  match l with
  | [] => none
  | (k', v) :: rest => if k' = k then some v else lookupVal rest k

/-- `k in dct` for an association-list dictionary. -/
def hasKey (l : List (String × PyVal)) (k : String) : Bool :=
  match l with
  | [] => false
  | (k', _) :: rest => k' = k || hasKey rest k

theorem lookupVal_isSome_iff_hasKey (l : List (String × PyVal)) (k : String) :
    (lookupVal l k).isSome = hasKey l k := by
  induction l with
  | nil => rfl
  | cons p rest ih =>
    obtain ⟨k', v⟩ := p
    by_cases h : k' = k <;> simp [lookupVal, hasKey, h, ih]

theorem lookupVal_eq_none_of_not_hasKey {l : List (String × PyVal)} {k : String}
    (h : hasKey l k = false) : lookupVal l k = none := by
  have := lookupVal_isSome_iff_hasKey l k
  rw [h] at this
  exact Option.not_isSome_iff_eq_none.mp (by simp [this])

/-- Size bound used for termination: a value found in an association list is
smaller than the list. -/
theorem lookupVal_sizeOf_lt {l : List (String × PyVal)} {k : String} {v : PyVal}
    (h : lookupVal l k = some v) : sizeOf v < sizeOf l := by
  induction l with
  | nil => simp [lookupVal] at h
  | cons p rest ih =>
    obtain ⟨k', w⟩ := p
    simp only [lookupVal] at h
    split at h
    · cases h
      simp only [List.cons.sizeOf_spec, Prod.mk.sizeOf_spec]
      omega
    · have := ih h
      simp only [List.cons.sizeOf_spec]
      omega

/-! ## Decimal printing and parsing

Models Python's `str`/`%d` formatting and `int()` parsing of (unsigned)
decimal numerals, which are all the uses the date/datetime code makes of
them.  (Python's `int()` additionally tolerates surrounding whitespace and
an explicit sign; those inputs do not occur in this development.) -/

/-- The decimal digit character for `n % 10`-style values. -/
def digitChar (n : Nat) : Char := Char.ofNat (48 + n)

/-- Big-endian decimal digit list of a natural number. -/
def natDigits (n : Nat) : List Char :=
  if h : n < 10 then [digitChar n]
  else
    have : n / 10 < n := Nat.div_lt_self (by omega) (by omega)
    natDigits (n / 10) ++ [digitChar (n % 10)]

/-- `str(n)` for a natural number. -/
def natStr (n : Nat) : String := String.mk (natDigits n)

/-- `"%0{w}d" % n`: decimal with left zero-padding to width `w`. -/
def padNum (w n : Nat) : String :=
  String.mk (List.replicate (w - (natDigits n).length) '0' ++ natDigits n)

/-- Decimal digit test. -/
def isDig (c : Char) : Bool := 48 ≤ c.toNat && c.toNat ≤ 57

/-- Numeric value of the digits, most significant first. -/
def digitsVal : Nat → List Char → Nat
  | acc, [] => acc
  | acc, c :: rest => digitsVal (acc * 10 + (c.toNat - 48)) rest

theorem digitsVal_nil (acc : Nat) : digitsVal acc [] = acc := rfl

theorem digitsVal_cons (acc : Nat) (c : Char) (rest : List Char) :
    digitsVal acc (c :: rest) = digitsVal (acc * 10 + (c.toNat - 48)) rest := rfl

/-- `int(s)` on a non-negative decimal numeral; `none` models the
`ValueError` raised on malformed input. -/
def parseNat (s : String) : Option Nat :=
  if !s.toList.isEmpty && s.toList.all isDig then some (digitsVal 0 s.toList) else none

theorem digitChar_isDig {n : Nat} (h : n < 10) : isDig (digitChar n) = true := by
  interval_cases n <;> decide

theorem digitChar_toNat {n : Nat} (h : n < 10) : (digitChar n).toNat = 48 + n := by
  interval_cases n <;> decide

theorem natDigits_lt {n : Nat} (h : n < 10) : natDigits n = [digitChar n] := by
  rw [natDigits, dif_pos h]

theorem natDigits_ge {n : Nat} (h : ¬ n < 10) :
    natDigits n = natDigits (n / 10) ++ [digitChar (n % 10)] := by
  rw [natDigits]
  simp [h]

theorem natDigits_all_isDig (n : Nat) : (natDigits n).all isDig = true := by
  induction n using Nat.strong_induction_on with
  | _ n ih =>
    by_cases h : n < 10
    · rw [natDigits_lt h]
      simp [digitChar_isDig h]
    · rw [natDigits_ge h]
      have hd : n / 10 < n := Nat.div_lt_self (by omega) (by omega)
      have h10 : n % 10 < 10 := Nat.mod_lt _ (by omega)
      simp [List.all_append, ih _ hd, digitChar_isDig h10]

theorem natDigits_ne_nil (n : Nat) : natDigits n ≠ [] := by
  by_cases h : n < 10
  · rw [natDigits_lt h]
    simp
  · rw [natDigits_ge h]
    simp

theorem digitsVal_append (acc : Nat) (xs ys : List Char) :
    digitsVal acc (xs ++ ys) = digitsVal (digitsVal acc xs) ys := by
  induction xs generalizing acc with
  | nil => rfl
  | cons c rest ih => rw [List.cons_append, digitsVal_cons, digitsVal_cons, ih]

theorem digitsVal_natDigits (n : Nat) (acc : Nat) :
    digitsVal acc (natDigits n) = acc * 10 ^ (natDigits n).length + n := by
  induction n using Nat.strong_induction_on generalizing acc with
  | _ n ih =>
    by_cases h : n < 10
    · rw [natDigits_lt h]
      rw [digitsVal_cons, digitsVal_nil]
      simp only [List.length_singleton, pow_one, digitChar_toNat h]
      omega
    · rw [natDigits_ge h]
      have hd : n / 10 < n := Nat.div_lt_self (by omega) (by omega)
      have h10 : n % 10 < 10 := Nat.mod_lt _ (by omega)
      rw [digitsVal_append, ih _ hd, List.length_append, List.length_singleton,
        digitsVal_cons, digitsVal_nil]
      simp only [digitChar_toNat h10]
      have hpow : acc * 10 ^ ((natDigits (n / 10)).length + 1) =
          acc * 10 ^ (natDigits (n / 10)).length * 10 := by ring
      rw [hpow]
      omega

theorem toList_mk (cs : List Char) : (String.mk cs).toList = cs := rfl

/-- Round trip: `int(str(n)) = n`. -/
theorem parseNat_natStr (n : Nat) : parseNat (natStr n) = some n := by
  unfold parseNat natStr
  rw [toList_mk]
  have hne := natDigits_ne_nil n
  have hall := natDigits_all_isDig n
  have hempty : (natDigits n).isEmpty = false := by
    simpa [List.isEmpty_iff] using hne
  rw [hempty, hall]
  have := digitsVal_natDigits n 0
  simp only [Nat.zero_mul, Nat.zero_add] at this
  simp [this]

theorem digitsVal_replicate_zero (acc k : Nat) :
    digitsVal acc (List.replicate k '0') = acc * 10 ^ k := by
  induction k generalizing acc with
  | zero =>
    rw [List.replicate_zero, digitsVal_nil]
    simp
  | succ k ih =>
    rw [List.replicate_succ, digitsVal_cons]
    simp only [ih]
    have : ('0' : Char).toNat = 48 := by decide
    rw [this]
    ring

theorem natPad_all_isDig (w n : Nat) :
    (List.replicate (w - (natDigits n).length) '0' ++ natDigits n).all isDig = true := by
  rw [List.all_append]
  have hrep : (List.replicate (w - (natDigits n).length) '0').all isDig = true := by
    simp only [List.all_eq_true]
    intro c hc
    rw [List.eq_of_mem_replicate hc]
    decide
  rw [hrep, natDigits_all_isDig n]
  rfl

/-- Round trip through zero padding: `int("%0{w}d" % n) = n`. -/
theorem parseNat_padNum (w n : Nat) : parseNat (padNum w n) = some n := by
  unfold parseNat padNum
  rw [toList_mk]
  have hne := natDigits_ne_nil n
  have hall := natPad_all_isDig w n
  have hempty : (List.replicate (w - (natDigits n).length) '0' ++ natDigits n).isEmpty = false := by
    simp [List.isEmpty_iff, hne]
  rw [hempty, hall]
  rw [digitsVal_append, digitsVal_replicate_zero]
  simp only [Nat.zero_mul]
  have := digitsVal_natDigits n 0
  simp only [Nat.zero_mul, Nat.zero_add] at this
  simp [this]

/-! ## String splitting

Model of Python's `s.split(sep)` for a one-character separator, on lists of
characters (`"a--b".split('-') == ['a', '', 'b']`). -/

/-- `cs.split(sep)` on character lists; the result is never empty. -/
def splitChar (sep : Char) : List Char → List (List Char)
  | [] => [[]]
  | c :: cs =>
    match splitChar sep cs with
    | [] => [[]]
    | g :: gs => if c = sep then [] :: g :: gs else (c :: g) :: gs

/-- `s.split(sep)` on strings. -/
def pySplit (sep : Char) (s : String) : List String :=
  (splitChar sep s.toList).map String.mk

theorem splitChar_cons (sep c : Char) (cs : List Char) :
    splitChar sep (c :: cs) =
    (match splitChar sep cs with
     | [] => [[]]
     | g :: gs => if c = sep then [] :: g :: gs else (c :: g) :: gs) := rfl

theorem splitChar_ne_nil (sep : Char) (cs : List Char) : splitChar sep cs ≠ [] := by
  induction cs with
  | nil => simp [splitChar]
  | cons c rest ih =>
    rw [splitChar_cons]
    match h : splitChar sep rest with
    | [] => simp
    | g :: gs =>
      by_cases hc : c = sep <;> simp [hc]

theorem splitChar_no_sep {sep : Char} {cs : List Char} (h : sep ∉ cs) :
    splitChar sep cs = [cs] := by
  induction cs with
  | nil => rfl
  | cons c rest ih =>
    have hcr : sep ∉ rest := fun hm => h (List.mem_cons_of_mem _ hm)
    have hc : c ≠ sep := fun he => h (he ▸ List.mem_cons_self c rest)
    rw [splitChar_cons, ih hcr]
    simp [hc]

theorem splitChar_append_sep {sep : Char} {a : List Char} (rest : List Char)
    (h : sep ∉ a) : splitChar sep (a ++ sep :: rest) = a :: splitChar sep rest := by
  induction a with
  | nil =>
    rw [List.nil_append, splitChar_cons]
    match hs : splitChar sep rest with
    | [] => exact absurd hs (splitChar_ne_nil sep rest)
    | g :: gs => simp
  | cons c a' ih =>
    have hca : sep ∉ a' := fun hm => h (List.mem_cons_of_mem _ hm)
    have hc : c ≠ sep := fun he => h (he ▸ List.mem_cons_self c a')
    rw [List.cons_append, splitChar_cons, ih hca]
    simp [hc]

theorem isDig_ne_of_not_isDig {c d : Char} (hc : isDig c = true) (hd : isDig d = false) :
    c ≠ d := by
  intro h
  rw [h] at hc
  rw [hc] at hd
  cases hd

theorem natPad_not_mem {w n : Nat} {c : Char} (hc : isDig c = false) :
    c ∉ List.replicate (w - (natDigits n).length) '0' ++ natDigits n := by
  intro hmem
  have := natPad_all_isDig w n
  rw [List.all_eq_true] at this
  have hd := this c hmem
  rw [hd] at hc
  cases hc

/-! ## Byte-string encodings

Models of the codecs used by the `Bytes` and `Text` field types:
ISO-8859-1 ("readable" mode: byte values map 1:1 to code points), ASCII,
standard base64 (`binascii.b2a_base64` / `a2b_base64`, trailing newline
stripped), and UTF-8 decoding (used by `Text.dump` on byte-string input). -/

/-- `bytes.decode("iso-8859-1")`: total, each byte becomes the code point of
the same value. -/
def latin1Decode (bs : List Nat) : String := String.mk (bs.map Char.ofNat)

/-- One character of `text.encode("iso-8859-1")`; code points above 255
raise `UnicodeEncodeError` (a `ValueError`). -/
def latin1EncodeChar (c : Char) : Option Nat :=
  if c.toNat < 256 then some c.toNat else none

/-- `text.encode("iso-8859-1")`. -/
def latin1Encode (s : String) : Option (List Nat) :=
  s.toList.mapM latin1EncodeChar

/-- One character of `text.encode("ascii")`. -/
def asciiEncodeChar (c : Char) : Option Nat :=
  if c.toNat < 128 then some c.toNat else none

/-- `text.encode("ascii")`. -/
def asciiEncode (s : String) : Option (List Nat) :=
  s.toList.mapM asciiEncodeChar

theorem char_toNat_ofNat {n : Nat} (h : n < 0xd800) : (Char.ofNat n).toNat = n := by
  have hv : n.isValidChar := Or.inl h
  simp [Char.ofNat, hv, Char.toNat, Char.ofNatAux, UInt32.toNat]

/-- Reading back a latin-1 decoded byte string re-encodes to the same
bytes. -/
theorem latin1Encode_latin1Decode {bs : List Nat} (h : ∀ b ∈ bs, b < 256) :
    latin1Encode (latin1Decode bs) = some bs := by
  unfold latin1Encode latin1Decode
  rw [toList_mk]
  induction bs with
  | nil => rfl
  | cons b rest ih =>
    have hb : b < 256 := h b (List.mem_cons_self b rest)
    have hr : ∀ x ∈ rest, x < 256 := fun x hx => h x (List.mem_cons_of_mem _ hx)
    have htn : (Char.ofNat b).toNat = b := char_toNat_ofNat (by omega)
    simp only [List.map_cons, List.mapM_cons, ih hr, latin1EncodeChar, htn]
    simp [hb]

/-- `bytes.decode("utf8")`, used by `Text.dump` on byte-string input;
`none` models `UnicodeDecodeError` (caught by `Text.dump` and re-raised as
`ValueError`). -/
def utf8Decode (bs : List Nat) : Option (List Char) :=
  match bs with
  | [] => some []
  | b :: rest =>
    if b < 0x80 then
      (utf8Decode rest).map (fun cs => Char.ofNat b :: cs)
    else if 0xC2 ≤ b ∧ b ≤ 0xDF then
      match rest with
      | b2 :: rest2 =>
        if 0x80 ≤ b2 ∧ b2 < 0xC0 then
          (utf8Decode rest2).map (fun cs => Char.ofNat ((b - 0xC0) * 64 + (b2 - 0x80)) :: cs)
        else none
      | [] => none
    else if 0xE0 ≤ b ∧ b ≤ 0xEF then
      match rest with
      | b2 :: b3 :: rest3 =>
        if (0x80 ≤ b2 ∧ b2 < 0xC0) ∧ (0x80 ≤ b3 ∧ b3 < 0xC0) then
          let cp := (b - 0xE0) * 4096 + (b2 - 0x80) * 64 + (b3 - 0x80)
          if cp.isValidChar then (utf8Decode rest3).map (fun cs => Char.ofNat cp :: cs)
          else none
        else none
      | _ => none
    else if 0xF0 ≤ b ∧ b ≤ 0xF4 then
      match rest with
      | b2 :: b3 :: b4 :: rest4 =>
        if (0x80 ≤ b2 ∧ b2 < 0xC0) ∧ (0x80 ≤ b3 ∧ b3 < 0xC0) ∧ (0x80 ≤ b4 ∧ b4 < 0xC0) then
          let cp := (b - 0xF0) * 262144 + (b2 - 0x80) * 4096 + (b3 - 0x80) * 64 + (b4 - 0x80)
          if cp.isValidChar then (utf8Decode rest4).map (fun cs => Char.ofNat cp :: cs)
          else none
        else none
      | _ => none
    else none
  termination_by bs.length
  decreasing_by all_goals (simp_all <;> omega)

/-- `bytes.decode("utf8")` producing a text string. -/
def pyUtf8Decode (bs : List Nat) : Option String :=
  (utf8Decode bs).map String.mk

/-- The base64 alphabet, index order as in RFC 4648. -/
def b64alphabet : List Char :=
  "ABCDEFGHIJKLMNOPQRSTUVWXYZabcdefghijklmnopqrstuvwxyz0123456789+/".toList

/-- Character for a six-bit group. -/
def b64char (n : Nat) : Char := b64alphabet.getD n '?'

/-- Six-bit value of an alphabet character; `none` for anything else. -/
def b64val (c : Char) : Option Nat := List.indexOf? c b64alphabet

/-- `binascii.b2a_base64(bytes).rstrip('\n')`: standard base64 with `=`
padding and no line break. -/
def encodeB64 : List Nat → List Char
  | [] => []
  | [a] => [b64char (a / 4), b64char (a % 4 * 16), '=', '=']
  | [a, b] => [b64char (a / 4), b64char (a % 4 * 16 + b / 16), b64char (b % 16 * 4), '=']
  | a :: b :: c :: rest =>
    b64char (a / 4) :: b64char (a % 4 * 16 + b / 16) ::
      b64char (b % 16 * 4 + c / 64) :: b64char (c % 64) :: encodeB64 rest

/-- `binascii.a2b_base64`: inverse of `encodeB64`; `none` models
`binascii.Error` (a `ValueError`) on input that is not well-formed base64.
(The real codec is more lenient about stray characters; only encoder
outputs are decoded in this development.) -/
def decodeB64Quad (c1 c2 c3 c4 : Char) (rest : List Char)
    (tailRes : Option (List Nat)) : Option (List Nat) :=
  if c3 = '=' ∧ c4 = '=' then
    (b64val c1).bind fun v1 =>
      (b64val c2).bind fun v2 =>
        if rest.isEmpty then some [v1 * 4 + v2 / 16] else none
  else if c4 = '=' then
    (b64val c1).bind fun v1 =>
      (b64val c2).bind fun v2 =>
        (b64val c3).bind fun v3 =>
          if rest.isEmpty then some [v1 * 4 + v2 / 16, v2 % 16 * 16 + v3 / 4] else none
  else
    (b64val c1).bind fun v1 =>
      (b64val c2).bind fun v2 =>
        (b64val c3).bind fun v3 =>
          (b64val c4).bind fun v4 =>
            tailRes.bind fun tail =>
              some ((v1 * 4 + v2 / 16) :: (v2 % 16 * 16 + v3 / 4) :: (v3 % 4 * 64 + v4) :: tail)

def decodeB64 : List Char → Option (List Nat)
  | [] => some []
  | c1 :: c2 :: c3 :: c4 :: rest => decodeB64Quad c1 c2 c3 c4 rest (decodeB64 rest)
  | _ => none

theorem decodeB64_cons4 (c1 c2 c3 c4 : Char) (rest : List Char) :
    decodeB64 (c1 :: c2 :: c3 :: c4 :: rest) =
    decodeB64Quad c1 c2 c3 c4 rest (decodeB64 rest) := rfl

theorem b64val_b64char : ∀ n < 64, b64val (b64char n) = some n := by decide

theorem b64char_ne_pad : ∀ n < 64, b64char n ≠ '=' := by decide

/-- Base64 round trip on byte strings. -/
theorem decodeB64_encodeB64 : ∀ (bs : List Nat), (∀ b ∈ bs, b < 256) →
    decodeB64 (encodeB64 bs) = some bs := by
  intro bs
  induction bs using encodeB64.induct with
  | case1 =>
    intro _
    rfl
  | case2 a =>
    intro h
    have ha : a < 256 := h a (by simp)
    have h1 : a / 4 < 64 := by omega
    have h2 : a % 4 * 16 < 64 := by omega
    rw [show encodeB64 [a] = [b64char (a / 4), b64char (a % 4 * 16), '=', '='] from rfl,
      decodeB64_cons4, decodeB64Quad, if_pos ⟨rfl, rfl⟩]
    simp only [b64val_b64char _ h1, b64val_b64char _ h2, Option.some_bind]
    simp
    omega
  | case3 a b =>
    intro h
    have ha : a < 256 := h a (by simp)
    have hb : b < 256 := h b (by simp)
    have h1 : a / 4 < 64 := by omega
    have h2 : a % 4 * 16 + b / 16 < 64 := by omega
    have h3 : b % 16 * 4 < 64 := by omega
    rw [show encodeB64 [a, b] =
      [b64char (a / 4), b64char (a % 4 * 16 + b / 16), b64char (b % 16 * 4), '='] from rfl,
      decodeB64_cons4, decodeB64Quad]
    rw [if_neg (fun hand => b64char_ne_pad _ h3 hand.1), if_pos rfl]
    simp only [b64val_b64char _ h1, b64val_b64char _ h2, b64val_b64char _ h3,
      Option.some_bind]
    simp
    omega
  | case4 a b c rest ih =>
    intro h
    have ha : a < 256 := h a (by simp)
    have hb : b < 256 := h b (by simp)
    have hc : c < 256 := h c (by simp)
    have hrest : ∀ x ∈ rest, x < 256 := fun x hx => h x (by simp [hx])
    have h1 : a / 4 < 64 := by omega
    have h2 : a % 4 * 16 + b / 16 < 64 := by omega
    have h3 : b % 16 * 4 + c / 64 < 64 := by omega
    have h4 : c % 64 < 64 := by omega
    rw [show encodeB64 (a :: b :: c :: rest) =
      b64char (a / 4) :: b64char (a % 4 * 16 + b / 16) ::
        b64char (b % 16 * 4 + c / 64) :: b64char (c % 64) :: encodeB64 rest from rfl,
      decodeB64_cons4, decodeB64Quad]
    rw [if_neg (fun hand => b64char_ne_pad _ h3 hand.1), if_neg (b64char_ne_pad _ h4)]
    simp only [b64val_b64char _ h1, b64val_b64char _ h2, b64val_b64char _ h3,
      b64val_b64char _ h4, Option.some_bind, ih hrest]
    simp
    omega

/-! ## Dates and datetimes

Models `str(datetime.date)` / `str(datetime.datetime)` and the parsing done
by `Date.load` (`split('-')` + `int()` + the `datetime.date` constructor)
and `DateTime.load` (`datetime.strptime` with the formats
`"%Y-%m-%d %H:%M:%S"` and `"%Y-%m-%d %H:%M:%S.%f"`).  The `strptime` model
parses separator-delimited digit runs and validates field ranges; it is
faithful on well-formed input and on every input exercised in this file
(`strptime` additionally caps each directive at a maximum digit width). -/

/-- The character list of `"%0{w}d" % n`. -/
def natPadL (w n : Nat) : List Char :=
  List.replicate (w - (natDigits n).length) '0' ++ natDigits n

theorem padNum_eq_natPadL (w n : Nat) : padNum w n = String.mk (natPadL w n) := rfl

theorem natPadL_not_mem {w n : Nat} {c : Char} (hc : isDig c = false) :
    c ∉ natPadL w n := natPad_not_mem hc

theorem digitsVal_natPadL (w n : Nat) : digitsVal 0 (natPadL w n) = n := by
  unfold natPadL
  rw [digitsVal_append, digitsVal_replicate_zero]
  simp only [Nat.zero_mul]
  have := digitsVal_natDigits n 0
  simpa using this

theorem natPadL_all_isDig (w n : Nat) : (natPadL w n).all isDig = true :=
  natPad_all_isDig w n

theorem natDigits_length_le {n k : Nat} (hk : 1 ≤ k) (h : n < 10 ^ k) :
    (natDigits n).length ≤ k := by
  induction n using Nat.strong_induction_on generalizing k with
  | _ n ih =>
    by_cases hn : n < 10
    · rw [natDigits_lt hn]
      simpa using hk
    · rw [natDigits_ge hn]
      have hk2 : 2 ≤ k := by
        by_contra hlt
        have : k = 1 := by omega
        subst this
        simp at h
        omega
      have hdiv : n / 10 < 10 ^ (k - 1) := by
        have h10 : 10 ^ k = 10 ^ (k - 1) * 10 := by
          conv_lhs => rw [show k = (k - 1) + 1 by omega]
          ring
        rw [h10] at h
        omega
      have := ih (n / 10) (Nat.div_lt_self (by omega) (by omega)) (by omega) hdiv
      simp only [List.length_append, List.length_singleton]
      omega

theorem natPadL_length {w n : Nat} (h : (natDigits n).length ≤ w) :
    (natPadL w n).length = w := by
  simp only [natPadL, List.length_append, List.length_replicate]
  omega

/-- Leap-year rule used by `datetime`. -/
def isLeap (y : Nat) : Bool := y % 4 = 0 && (y % 100 ≠ 0 || y % 400 = 0)

/-- Days in a month, as validated by the `datetime.date` constructor. -/
def daysInMonth (y m : Nat) : Nat :=
  if m = 2 then (if isLeap y then 29 else 28)
  else if m = 4 ∨ m = 6 ∨ m = 9 ∨ m = 11 then 30
  else 31

/-- Range validation performed by the `datetime.date` constructor
(`MINYEAR = 1`, `MAXYEAR = 9999`). -/
def validDate (y m d : Nat) : Bool :=
  decide (1 ≤ y ∧ y ≤ 9999 ∧ 1 ≤ m ∧ m ≤ 12 ∧ 1 ≤ d ∧ d ≤ daysInMonth y m)

/-- Range validation of the time-of-day fields of `datetime.datetime`. -/
def validTime (h mi s : Nat) : Bool := decide (h ≤ 23 ∧ mi ≤ 59 ∧ s ≤ 59)

/-- Character list of `str(datetime.date(y, m, d))`: `"%04d-%02d-%02d"`. -/
def dateChars (y m d : Nat) : List Char :=
  natPadL 4 y ++ '-' :: (natPadL 2 m ++ '-' :: natPadL 2 d)

/-- `str(datetime.date(y, m, d))`. -/
def formatDate (y m d : Nat) : String := String.mk (dateChars y m d)

/-- The body of `Date.load`:
`(year, month, day) = obj.split('-')` (a `ValueError` if not three parts),
`int(...)` on each part, then the `datetime.date` constructor. -/
def parseDate (s : String) : Option (Nat × Nat × Nat) :=
  match pySplit '-' s with
  | [ys, ms, ds] =>
    (parseNat ys).bind fun y =>
      (parseNat ms).bind fun m =>
        (parseNat ds).bind fun d =>
          if validDate y m d then some (y, m, d) else none
  | _ => none

theorem not_mem_natPadL_dash (w n : Nat) : '-' ∉ natPadL w n :=
  natPadL_not_mem (by decide)

theorem splitChar_dateChars (y m d : Nat) :
    splitChar '-' (dateChars y m d) = [natPadL 4 y, natPadL 2 m, natPadL 2 d] := by
  unfold dateChars
  rw [splitChar_append_sep _ (not_mem_natPadL_dash 4 y),
    splitChar_append_sep _ (not_mem_natPadL_dash 2 m),
    splitChar_no_sep (not_mem_natPadL_dash 2 d)]

/-- `Date` round trip: parsing the formatted date gives back the
components. -/
theorem parseDate_formatDate {y m d : Nat} (h : validDate y m d = true) :
    parseDate (formatDate y m d) = some (y, m, d) := by
  unfold parseDate pySplit formatDate
  rw [toList_mk, splitChar_dateChars]
  simp only [List.map_cons, List.map_nil, ← padNum_eq_natPadL]
  rw [parseNat_padNum, Option.some_bind, parseNat_padNum, Option.some_bind,
    parseNat_padNum, Option.some_bind, if_pos h]

/-- Character list of the time part `"%02d:%02d:%02d"`. -/
def timeChars (h mi s : Nat) : List Char :=
  natPadL 2 h ++ ':' :: (natPadL 2 mi ++ ':' :: natPadL 2 s)

/-- Character list of `str(datetime.datetime(...))`: the fractional part is
printed exactly when the microsecond field is non-zero. -/
def dtChars (y mo d h mi s us : Nat) : List Char :=
  dateChars y mo d ++ ' ' ::
    (timeChars h mi s ++ (if us = 0 then [] else '.' :: natPadL 6 us))

/-- `str(datetime.datetime(...))`. -/
def formatDateTime (y mo d h mi s us : Nat) : String :=
  String.mk (dtChars y mo d h mi s us)

/-- `strptime`'s `%f` directive: one to six digits, scaled to
microseconds. -/
def parseFrac (cs : List Char) : Option Nat :=
  if 1 ≤ cs.length ∧ cs.length ≤ 6 ∧ cs.all isDig then
    some (digitsVal 0 cs * 10 ^ (6 - cs.length))
  else none

/-- Parse and validate the six date/time fields (shared tail of both
`strptime` calls). -/
def strpFields (ys ms ds hs mis ss : List Char) (us : Option Nat) :
    Option (Nat × Nat × Nat × Nat × Nat × Nat × Nat) :=
  (parseNat (String.mk ys)).bind fun y =>
    (parseNat (String.mk ms)).bind fun mo =>
      (parseNat (String.mk ds)).bind fun d =>
        (parseNat (String.mk hs)).bind fun h =>
          (parseNat (String.mk mis)).bind fun mi =>
            (parseNat (String.mk ss)).bind fun sec =>
              us.bind fun u =>
                if validDate y mo d ∧ validTime h mi sec then
                  some (y, mo, d, h, mi, sec, u)
                else none

/-- Fraction-less time part: the seconds field is all of `ss`. -/
def strpParts : List (List Char) → List (List Char) →
    Option (Nat × Nat × Nat × Nat × Nat × Nat × Nat)
  | [ys, ms, ds], [hs, mis, ss] => strpFields ys ms ds hs mis ss (some 0)
  | _, _ => none

/-- Time part with fraction: the third `:`-component splits on `.` into
seconds and the `%f` digits. -/
def strpPartsFrac : List (List Char) → List (List Char) →
    Option (Nat × Nat × Nat × Nat × Nat × Nat × Nat)
  | [ys, ms, ds], [hs, mis, ssf] =>
    match splitChar '.' ssf with
    | [ss, fs] => strpFields ys ms ds hs mis ss (parseFrac fs)
    | _ => none
  | _, _ => none

/-- Split into date part and time part on the single space. -/
def strpSpace (f : List (List Char) → List (List Char) →
    Option (Nat × Nat × Nat × Nat × Nat × Nat × Nat)) :
    List (List Char) → Option (Nat × Nat × Nat × Nat × Nat × Nat × Nat)
  | [dPart, tPart] => f (splitChar '-' dPart) (splitChar ':' tPart)
  | _ => none

/-- `datetime.strptime(s, "%Y-%m-%d %H:%M:%S")` (microseconds zero). -/
def strpNoFrac (s : String) : Option (Nat × Nat × Nat × Nat × Nat × Nat × Nat) :=
  strpSpace strpParts (splitChar ' ' s.toList)

/-- `datetime.strptime(s, "%Y-%m-%d %H:%M:%S.%f")`. -/
def strpFrac (s : String) : Option (Nat × Nat × Nat × Nat × Nat × Nat × Nat) :=
  strpSpace strpPartsFrac (splitChar ' ' s.toList)

/-- The body of `DateTime.load`: dispatch on `'.' in obj`, then `strptime`
with the matching format. -/
def parseDateTime (s : String) : Option (Nat × Nat × Nat × Nat × Nat × Nat × Nat) :=
  if '.' ∈ s.toList then strpFrac s else strpNoFrac s

theorem not_mem_dateChars {c : Char} {y m d : Nat} (hc : isDig c = false)
    (hdash : c ≠ '-') : c ∉ dateChars y m d := by
  unfold dateChars
  simp only [List.mem_append, List.mem_cons]
  push_neg
  exact ⟨natPadL_not_mem hc, hdash,
    natPadL_not_mem hc, hdash, natPadL_not_mem hc⟩

theorem not_mem_timeChars {c : Char} {h mi s : Nat} (hc : isDig c = false)
    (hcolon : c ≠ ':') : c ∉ timeChars h mi s := by
  unfold timeChars
  simp only [List.mem_append, List.mem_cons]
  push_neg
  exact ⟨natPadL_not_mem hc, hcolon,
    natPadL_not_mem hc, hcolon, natPadL_not_mem hc⟩

theorem splitChar_timeChars (h mi s : Nat) :
    splitChar ':' (timeChars h mi s) = [natPadL 2 h, natPadL 2 mi, natPadL 2 s] := by
  unfold timeChars
  rw [splitChar_append_sep _ (natPadL_not_mem (by decide)),
    splitChar_append_sep _ (natPadL_not_mem (by decide)),
    splitChar_no_sep (natPadL_not_mem (by decide))]

/-- `DateTime` round trip, zero microseconds: `str()` omits the fraction and
the fraction-less `strptime` branch parses it back. -/
theorem parseDateTime_formatDateTime_zero {y mo d h mi s : Nat}
    (hd : validDate y mo d = true) (ht : validTime h mi s = true) :
    parseDateTime (formatDateTime y mo d h mi s 0) = some (y, mo, d, h, mi, s, 0) := by
  unfold parseDateTime formatDateTime
  rw [toList_mk]
  have hdt : dtChars y mo d h mi s 0 = dateChars y mo d ++ ' ' :: timeChars h mi s := by
    simp [dtChars]
  rw [hdt]
  have hdot : '.' ∉ dateChars y mo d ++ ' ' :: timeChars h mi s := by
    simp only [List.mem_append, List.mem_cons]
    push_neg
    exact ⟨not_mem_dateChars (by decide) (by decide), by decide,
      not_mem_timeChars (by decide) (by decide)⟩
  rw [if_neg hdot]
  unfold strpNoFrac
  rw [toList_mk,
    splitChar_append_sep _ (not_mem_dateChars (by decide) (by decide)),
    splitChar_no_sep (not_mem_timeChars (by decide) (by decide))]
  rw [show ∀ a b, strpSpace strpParts [a, b] =
      strpParts (splitChar '-' a) (splitChar ':' b) from fun _ _ => rfl]
  rw [splitChar_dateChars, splitChar_timeChars]
  rw [show ∀ p1 p2 p3 q1 q2 q3, strpParts [p1, p2, p3] [q1, q2, q3] =
      strpFields p1 p2 p3 q1 q2 q3 (some 0) from fun _ _ _ _ _ _ => rfl]
  unfold strpFields
  simp only [← padNum_eq_natPadL, parseNat_padNum, Option.some_bind]
  rw [if_pos ⟨hd, ht⟩]

/-- `DateTime` round trip, non-zero microseconds: `str()` prints a six-digit
fraction and the `%f` branch parses it back. -/
theorem parseDateTime_formatDateTime_frac {y mo d h mi s us : Nat}
    (hd : validDate y mo d = true) (ht : validTime h mi s = true)
    (hus0 : us ≠ 0) (hus : us ≤ 999999) :
    parseDateTime (formatDateTime y mo d h mi s us) = some (y, mo, d, h, mi, s, us) := by
  unfold parseDateTime formatDateTime
  rw [toList_mk]
  have hdt : dtChars y mo d h mi s us =
      dateChars y mo d ++ ' ' ::
        (natPadL 2 h ++ ':' :: (natPadL 2 mi ++ ':' :: (natPadL 2 s ++ '.' :: natPadL 6 us))) := by
    simp [dtChars, timeChars, hus0, List.append_assoc]
  rw [hdt]
  have hdot : '.' ∈ dateChars y mo d ++ ' ' ::
      (natPadL 2 h ++ ':' :: (natPadL 2 mi ++ ':' :: (natPadL 2 s ++ '.' :: natPadL 6 us))) := by
    simp
  rw [if_pos hdot]
  unfold strpFrac
  rw [toList_mk,
    splitChar_append_sep _ (not_mem_dateChars (by decide) (by decide))]
  have hnospace : ' ' ∉ natPadL 2 h ++ ':' :: (natPadL 2 mi ++ ':' :: (natPadL 2 s ++ '.' :: natPadL 6 us)) := by
    simp only [List.mem_append, List.mem_cons]
    push_neg
    refine ⟨natPadL_not_mem (by decide), by decide, natPadL_not_mem (by decide), by decide,
      natPadL_not_mem (by decide), by decide, natPadL_not_mem (by decide)⟩
  rw [splitChar_no_sep hnospace]
  rw [show ∀ a b, strpSpace strpPartsFrac [a, b] =
      strpPartsFrac (splitChar '-' a) (splitChar ':' b) from fun _ _ => rfl]
  rw [splitChar_dateChars]
  have hnocolon : ':' ∉ natPadL 2 s ++ '.' :: natPadL 6 us := by
    simp only [List.mem_append, List.mem_cons]
    push_neg
    exact ⟨natPadL_not_mem (by decide), by decide, natPadL_not_mem (by decide)⟩
  rw [splitChar_append_sep _ (natPadL_not_mem (by decide)),
    splitChar_append_sep _ (natPadL_not_mem (by decide)),
    splitChar_no_sep hnocolon]
  rw [show ∀ p1 p2 p3 q1 q2 q3, strpPartsFrac [p1, p2, p3] [q1, q2, q3] =
      (match splitChar '.' q3 with
       | [ss, fs] => strpFields p1 p2 p3 q1 q2 ss (parseFrac fs)
       | _ => none) from fun _ _ _ _ _ _ => rfl]
  rw [splitChar_append_sep _ (natPadL_not_mem (by decide)),
    splitChar_no_sep (natPadL_not_mem (by decide))]
  simp only
  unfold strpFields
  have hfrac : parseFrac (natPadL 6 us) = some us := by
    unfold parseFrac
    have hlen : (natPadL 6 us).length = 6 :=
      natPadL_length (natDigits_length_le (by omega) (by omega))
    rw [if_pos ⟨by omega, by omega, natPadL_all_isDig 6 us⟩]
    rw [digitsVal_natPadL, hlen]
    norm_num
  simp only [← padNum_eq_natPadL, parseNat_padNum, Option.some_bind, hfrac]
  rw [if_pos ⟨hd, ht⟩]

/-! ## The pyschema data model

Record schemas are an arena: `Env` is a list of record descriptors and a
`SubRecord` field stores the index of its target descriptor (the result of
the `set_parent` resolution pass; a self-referential `SubRecord(SELF)` holds
the index of its own enclosing descriptor).  Field declaration order is the
list order.  The `name` attribute of `Enum` and the `description` of fields
are registry/diagnostic metadata never read by `dump`/`load` and are not
modelled. -/

/-- The `Field` subclasses of `pyschema.types`, by structure.  `size` on
`Integer`/`Float` is carried but never read by `dump`/`load`. -/
inductive FType where
  | text
  | bytes (custom_encoding : Bool)
  | integer (size : Nat)
  | boolean
  | float (size : Nat)
  | enum (values : List String)
  | list (field_type : FType)
  | map (value_type : FType)
  | subrecord (schemaIdx : Nat)
  | date
  | datetime
  deriving Repr, DecidableEq

/-- One declared field: its type, `nullable` flag and `default`. -/
structure FieldSpec where
  ftype : FType
  nullable : Bool
  default : PyVal
  deriving Repr

/-- A record class: `__name__`, optional `_namespace`, the ordered
`_fields`, and `oid`, which models Python object identity of the class
(two distinct class declarations have distinct `oid`s even when they are
structurally identical). -/
structure RecordSchema where
  name : String
  ns : Option String
  oid : Nat
  fields : List (String × FieldSpec)
  deriving Repr

/-- The arena of record descriptors referenced by `FType.subrecord`. -/
abbrev Env := List RecordSchema

/-- `Field.__init__`: when `default` is not passed (`_UNTOUCHED`), nullable
fields default to `None` and non-nullable ones to the `NO_DEFAULT`
sentinel. -/
def Field_init (ftype : FType) (nullable : Bool) (default? : Option PyVal) : FieldSpec :=
  { ftype := ftype
    nullable := nullable
    default :=
      match default? with
      | some d => d
      | none => if nullable then .vnone else .vnodefault }

/-- `List.__init__(field_type, nullable=False, default=[])`. -/
def List_field_init (field_type : FType) : FieldSpec :=
  Field_init (.list field_type) false (some (.vlist []))

/-- `Map.__init__(value_type, nullable=False, default={})`. -/
def Map_field_init (value_type : FType) : FieldSpec :=
  Field_init (.map value_type) false (some (.vdict []))

/-- `Field.default_value` / its `List`/`Map`/`SubRecord` overrides: returns
the default, deep-copied for mutable defaults; `deepcopy` is the identity on
our pure values. -/
def default_value (f : FieldSpec) : PyVal := f.default

/-- Field lookup in a schema's `_fields` (`schema._fields.get(key)`). -/
def lookupField (l : List (String × FieldSpec)) (k : String) : Option FieldSpec :=
  match l with
  | [] => none
  | (k', f) :: rest => if k' = k then some f else lookupField rest k

/-- `bool(obj)`: Python truthiness of the modelled values. -/
def pyBool : PyVal → Bool
  | .vnone => false
  | .vbool b => b
  | .vint n => n != 0
  | .vfloat q => q != 0
  | .vstr s => s != ""
  | .vbytes bs => !bs.isEmpty
  | .vlist xs => !xs.isEmpty
  | .vdict e => !e.isEmpty
  | .vdate _ _ _ => true
  | .vdatetime _ _ _ _ _ _ _ => true
  | .vrecord _ _ => true
  | .vnodefault => true

/-- `obj in Boolean.VALUE_MAP` where `VALUE_MAP = {True: '1', 1: '1',
False: '0', 0: '0'}`: dictionary membership uses Python `==`, under which
booleans, integers and floats compare numerically; unhashable values
(lists, dicts) raise `TypeError`. -/
def valueMapHas : PyVal → Except PyErr Bool
  | .vlist _ => .error .typeError
  | .vdict _ => .error .typeError
  | .vbool _ => .ok true
  | .vint n => .ok (n == 0 || n == 1)
  | .vfloat q => .ok (q == 0 || q == 1)
  | _ => .ok false

/-- `obj in self.values` for an `Enum`'s value set (a set of text strings):
a text string is a member iff it is listed; a Python 2 byte string equals a
text string when it is ASCII and decodes to it; nothing else can equal a
string. -/
def enumHas (values : List String) : PyVal → Bool
  | .vstr s => values.contains s
  | .vbytes bs => bs.all (· < 128) && values.contains (String.mk (bs.map Char.ofNat))
  | _ => false

/-- `obj not in self.values` as evaluated by `Enum.dump`: membership in a
`set` hashes `obj` first, so unhashable values (lists, dicts) raise
`TypeError` before any vocabulary comparison. -/
def enumHasE (values : List String) : PyVal → Except PyErr Bool
  | .vlist _ => .error .typeError
  | .vdict _ => .error .typeError
  | v => .ok (enumHas values v)

/-- `Text.dump`: unicode and `None` pass through unchanged; a byte string
is UTF-8-decoded; any other value has no `.decode` method and the bare
`except` re-raises as `ValueError`. -/
def textDump : PyVal → Except PyErr PyVal
  | .vstr s => .ok (.vstr s)
  | .vnone => .ok .vnone
  | .vbytes bs =>
    match pyUtf8Decode bs with
    | some s => .ok (.vstr s)
    | none => .error .valueError
  | _ => .error .valueError

/-- `Text.load`: requires `unicode` or `None`; `ParseError` otherwise. -/
def textLoad : PyVal → Except PyErr PyVal
  | .vstr s => .ok (.vstr s)
  | .vnone => .ok .vnone
  | _ => .error .parseError

/-- `Bytes.dump`: unicode is rejected with `ValueError`; a byte string is
encoded with latin-1 pass-through or base64 depending on
`custom_encoding`; any other value fails attribute access / `b2a_base64`
argument conversion. -/
def bytesDump (custom_encoding : Bool) : PyVal → Except PyErr PyVal
  | .vstr _ => .error .valueError
  | .vbytes bs =>
    if custom_encoding then .ok (.vstr (String.mk (encodeB64 bs)))
    else .ok (.vstr (latin1Decode bs))
  | _ => if custom_encoding then .error .typeError else .error .attributeError

/-- `Bytes.load`: `obj.encode("iso-8859-1")` (readable mode) or
`a2b_base64(obj.encode("ascii"))` (base64 mode).  A Python 2 byte string
input is first ASCII-decoded by `encode`, so it must be ASCII;
encoding/codec failures are `ValueError` subclasses. -/
def bytesLoad (custom_encoding : Bool) : PyVal → Except PyErr PyVal
  | .vstr s =>
    if custom_encoding then
      match asciiEncode s with
      | none => .error .valueError
      | some _ =>
        match decodeB64 s.toList with
        | some bs => .ok (.vbytes bs)
        | none => .error .valueError
    else
      match latin1Encode s with
      | some bs => .ok (.vbytes bs)
      | none => .error .valueError
  | .vbytes bs =>
    if bs.all (· < 128) then
      if custom_encoding then
        match decodeB64 (bs.map Char.ofNat) with
        | some out => .ok (.vbytes out)
        | none => .error .valueError
      else .ok (.vbytes bs)
    else .error .valueError
  | _ => .error .attributeError

/-- `Date.load`: `obj.split('-')`, `int()` each part, `datetime.date`
constructor; every `ValueError` along the way is re-raised as
`ValueError`.  Inputs without `.split` raise `AttributeError`. -/
def dateLoad : PyVal → Except PyErr PyVal
  | .vstr s =>
    match parseDate s with
    | some (y, m, d) => .ok (.vdate y m d)
    | none => .error .valueError
  | .vbytes bs =>
    match parseDate (String.mk (bs.map Char.ofNat)) with
    | some (y, m, d) => .ok (.vdate y m d)
    | none => .error .valueError
  | _ => .error .attributeError

/-- `DateTime.load`: `'.' in obj` selects the `strptime` format; parse
failures are `ValueError`.  `'.' in obj` on a non-iterable raises
`TypeError`. -/
def datetimeLoad : PyVal → Except PyErr PyVal
  | .vstr s =>
    match parseDateTime s with
    | some (y, mo, d, h, mi, sec, us) => .ok (.vdatetime y mo d h mi sec us)
    | none => .error .valueError
  | .vbytes bs =>
    match parseDateTime (String.mk (bs.map Char.ofNat)) with
    | some (y, mo, d, h, mi, sec, us) => .ok (.vdatetime y mo d h mi sec us)
    | none => .error .valueError
  | _ => .error .typeError

/-- `val is None`. -/
def isNone : PyVal → Bool
  | .vnone => true
  | _ => false

mutual

/-- `field.dump(obj)` for each field-type variant of `pyschema.types`. -/
def dumpF (env : Env) : FType → PyVal → Except PyErr PyVal
  | .text, v => textDump v
  | .bytes ce, v => bytesDump ce v
  | .integer _, v =>
    -- Integer.dump: int/long/None pass, bool and the rest are ValueError
    match v with
    | .vint n => .ok (.vint n)
    | .vnone => .ok .vnone
    | _ => .error .valueError
  | .boolean, v =>
    -- Boolean.dump: VALUE_MAP membership check, then bool() coercion
    match valueMapHas v with
    | .error e => .error e
    | .ok true => .ok (.vbool (pyBool v))
    | .ok false => .error .valueError
  | .float _, v =>
    -- Float.dump: only float instances pass
    match v with
    | .vfloat q => .ok (.vfloat q)
    | _ => .error .valueError
  | .enum values, v =>
    -- Enum.dump: set-membership check (TypeError on unhashables), then the
    -- backing Text field dump
    match enumHasE values v with
    | .error e => .error e
    | .ok true => textDump v
    | .ok false => .error .valueError
  | .date, v =>
    -- Date.dump: isinstance(obj, datetime.date); datetime.datetime is a
    -- subclass of datetime.date, so datetimes pass too; str(obj)
    match v with
    | .vdate y m d => .ok (.vstr (formatDate y m d))
    | .vdatetime y mo d h mi s us => .ok (.vstr (formatDateTime y mo d h mi s us))
    | _ => .error .valueError
  | .datetime, v =>
    match v with
    | .vdatetime y mo d h mi s us => .ok (.vstr (formatDateTime y mo d h mi s us))
    | _ => .error .valueError
  | .list t, v =>
    -- List.dump also accepts tuples, which are not modelled here
    match v with
    | .vlist xs => (dumpList env t xs).map .vlist
    | _ => .error .valueError
  | .map t, v =>
    match v with
    | .vdict entries => (dumpDict env t entries).map .vdict
    | _ => .error .valueError
  | .subrecord i, v =>
    match env[i]? with
    | none => .error .attributeError
    | some s =>
      -- isinstance(obj, self._schema) then core.to_json_compatible(obj)
      match v with
      | .vrecord n fields =>
        if n = s.name then (to_json_compatible env s (.vrecord n fields)).map .vdict
        else .error .valueError
      | _ => .error .valueError
  termination_by t v => (sizeOf v, 2, 0)

/-- Element-wise dump of a list (`[self.field_type.dump(o) for o in obj]`):
all-or-nothing, the first failure aborts. -/
def dumpList (env : Env) (t : FType) : List PyVal → Except PyErr (List PyVal)
  | [] => .ok []
  | x :: rest =>
    (dumpF env t x).bind fun w =>
      (dumpList env t rest).map fun ws => w :: ws
  termination_by xs => (sizeOf xs, 0, 0)

/-- Entry-wise dump of a map.  Keys go through `Text.dump`, which is the
identity on the text keys representable in a modelled dictionary. -/
def dumpDict (env : Env) (t : FType) : List (String × PyVal) → Except PyErr (List (String × PyVal))
  | [] => .ok []
  | (k, v) :: rest =>
    (dumpF env t v).bind fun w =>
      (dumpDict env t rest).map fun ws => (k, w) :: ws
  termination_by entries => (sizeOf entries, 0, 0)

/-- `to_json_compatible(record)`: walk `record._fields` in declaration
order; skip fields whose attribute value is `None`; dump the rest.  The
record's schema is passed explicitly (in Python it lives on the instance's
class). -/
def to_json_compatible (env : Env) (s : RecordSchema) (record : PyVal) :
    Except PyErr (List (String × PyVal)) :=
  match record with
  | .vrecord _ fields => dumpFields env s.fields fields
  | _ => .error .attributeError
  termination_by (sizeOf record, 1, 0)

/-- The loop of `to_json_compatible`: `getattr(record, fname)` for each
declared field, keeping `f.dump(val)` for non-`None` values. -/
def dumpFields (env : Env) : List (String × FieldSpec) → List (String × PyVal) →
    Except PyErr (List (String × PyVal))
  | [], _ => .ok []
  | (fname, f) :: fs, inst =>
    match h : lookupVal inst fname with
    | none => .error .attributeError
    | some val =>
      -- `if val is not None`
      if isNone val then dumpFields env fs inst
      else
        (dumpF env f.ftype val).bind fun w =>
          (dumpFields env fs inst).map fun d => (fname, w) :: d
  termination_by fs inst => (sizeOf inst, 0, sizeOf fs)
  decreasing_by
  all_goals first
    | decreasing_tactic
    | (simp_wf
       refine Prod.Lex.left _ _ ?_
       have := lookupVal_sizeOf_lt h
       omega)

end

/-- `Record.__init__` via `schema(**kwargs)`: each declared field takes its
keyword argument when present and `field.default_value()` otherwise;
undeclared keyword arguments are silently ignored.  (Positional arguments,
which `__init__` rejects with `TypeError`, are not modelled.) -/
def record_init (s : RecordSchema) (kwargs : List (String × PyVal)) : PyVal :=
  .vrecord s.name (s.fields.map fun kf =>
    (kf.1, match lookupVal kwargs kf.1 with
           | some v => v
           | none => default_value kf.2))

mutual

/-- `field.load(obj)` for each field-type variant of `pyschema.types`. -/
def loadF (env : Env) : FType → PyVal → Except PyErr PyVal
  | .text, v => textLoad v
  | .bytes ce, v => bytesLoad ce v
  | .integer _, v =>
    -- Integer.load: int/long/None pass, bool and the rest are ParseError
    match v with
    | .vint n => .ok (.vint n)
    | .vnone => .ok .vnone
    | _ => .error .parseError
  | .boolean, v =>
    match valueMapHas v with
    | .error e => .error e
    | .ok true => .ok (.vbool (pyBool v))
    | .ok false => .error .parseError
  | .float _, v =>
    -- Float.load: isinstance(obj, (float, int, long)); a bool is an int,
    -- so booleans are accepted and promoted
    match v with
    | .vfloat q => .ok (.vfloat q)
    | .vint n => .ok (.vfloat n)
    | .vbool b => .ok (.vfloat (if b then 1 else 0))
    | _ => .error .parseError
  | .enum values, v =>
    -- Enum.load: the backing Text field load, then the vocabulary check
    -- with an explicit None passthrough
    match textLoad v with
    | .error e => .error e
    | .ok parsed =>
      if !enumHas values parsed && !isNone parsed then .error .parseError
      else .ok parsed
  | .date, v => dateLoad v
  | .datetime, v => datetimeLoad v
  | .list t, v =>
    match v with
    | .vlist xs => (loadList env t xs).map .vlist
    | _ => .error .parseError
  | .map t, v =>
    -- Map.load: obj.iteritems(); non-dicts have no such attribute
    match v with
    | .vdict entries => (loadDict env t entries).map .vdict
    | _ => .error .attributeError
  | .subrecord i, v =>
    match env[i]? with
    | none => .error .attributeError
    | some s =>
      -- core.from_json_compatible(self._schema, obj); iterating anything
      -- but a dict of declared keys fails
      match v with
      | .vdict entries => from_json_compatible env s entries
      | _ => .error .typeError
  termination_by t v => (sizeOf v, 2, 0)

/-- Element-wise load of a list. -/
def loadList (env : Env) (t : FType) : List PyVal → Except PyErr (List PyVal)
  | [] => .ok []
  | x :: rest =>
    (loadF env t x).bind fun v =>
      (loadList env t rest).map fun vs => v :: vs
  termination_by xs => (sizeOf xs, 0, 0)

/-- Entry-wise load of a map.  Keys go through `Text.load`, the identity on
the text keys representable in a modelled dictionary. -/
def loadDict (env : Env) (t : FType) : List (String × PyVal) → Except PyErr (List (String × PyVal))
  | [] => .ok []
  | (k, v) :: rest =>
    (loadF env t v).bind fun v' =>
      (loadDict env t rest).map fun d => (k, v') :: d
  termination_by entries => (sizeOf entries, 0, 0)

/-- `from_json_compatible(schema, dct)`: load every key of the wire
dictionary (rejecting undeclared keys with `ParseError`), then call the
record constructor with the collected keyword arguments. -/
def from_json_compatible (env : Env) (s : RecordSchema) (dct : List (String × PyVal)) :
    Except PyErr PyVal :=
  (loadFields env s.fields dct).map fun kwargs => record_init s kwargs
  termination_by (sizeOf dct, 1, 0)

/-- The loop of `from_json_compatible`: for each key of the input,
`schema._fields.get(key)` must yield a field (else
`ParseError("Unexpected field ...")`), whose `load` produces the keyword
argument. -/
def loadFields (env : Env) (sfields : List (String × FieldSpec)) :
    List (String × PyVal) → Except PyErr (List (String × PyVal))
  | [] => .ok []
  | (key, w) :: rest =>
    match lookupField sfields key with
    | none => .error .parseError
    | some f =>
      (loadF env f.ftype w).bind fun v =>
        (loadFields env sfields rest).map fun ks => (key, v) :: ks
  termination_by dct => (sizeOf dct, 0, 0)

end

/-! ## The schema registry (`SchemaStore`) -/

/-- An entry of a `SchemaStore._schema_map`: either a record class or the
`InvalidSchemaSpecification` placeholder, whose every attribute access
raises `ValueError`. -/
inductive StoreEntry where
  | cls (s : RecordSchema)
  | invalid (msg : String)
  deriving Repr

/-- `_schema_map`, a dictionary from used name to entry. -/
abbrev Store := List (String × StoreEntry)

def storeLookup (m : Store) (k : String) : Option StoreEntry :=
  match m with
  | [] => none
  | (k', e) :: rest => if k' = k then some e else storeLookup rest k

/-- `self._schema_map[used_name] = schema`. -/
def storeSet (m : Store) (k : String) (e : StoreEntry) : Store :=
  (k, e) :: m.filter (fun p => p.1 != k)

/-- Python `==`/`is` on schema-map entries: classes compare by object
identity (`oid`); the placeholder is a distinct object. -/
def entrySame : StoreEntry → StoreEntry → Bool
  | .cls a, .cls b => a.oid == b.oid
  | _, _ => false

def entryIsInvalid : StoreEntry → Bool
  | .invalid _ => true
  | _ => false

/-- `get_full_name(schema)`.  (The deprecated `_avro_namespace_` spelling
behaves identically apart from a deprecation warning and is not modelled
separately.) -/
def get_full_name (s : RecordSchema) : String :=
  match s.ns with
  | some n => n ++ "." ++ s.name
  | none => s.name

/-- `SchemaStore._force_add`: when a different entry already occupies
`used_name`, warn; with `_raise_on_existing`, additionally replace the
entry to be stored by an `InvalidSchemaSpecification` placeholder (keeping
an already-present placeholder).  The final dictionary write is
unconditional. -/
def _force_add (m : Store) (used_name : String) (schema : RecordSchema)
    (raise_on_existing : Bool) : Store :=
  match storeLookup m used_name with
  | some existing =>
    if !entrySame existing (.cls schema) then
      if raise_on_existing then
        if !entryIsInvalid existing then
          storeSet m used_name (.invalid
            ("Attempted to access data from a dubious schema specification. " ++
             "The schema for: " ++ used_name ++ " was provided by multiple classes"))
        else storeSet m used_name existing
      else storeSet m used_name (.cls schema)
    else storeSet m used_name (.cls schema)
  | none => storeSet m used_name (.cls schema)

/-- `SchemaStore.add_record`: store under the full name (poisoning full-name
conflicts when the name is namespaced), and additionally under the bare
class name only when that slot is still empty. -/
def add_record (m : Store) (schema : RecordSchema) : Store :=
  let full := get_full_name schema
  let has_ns := full.toList.contains '.'
  let m1 := _force_add m full schema has_ns
  if has_ns && !(storeLookup m1 schema.name).isSome then
    _force_add m1 schema.name schema false
  else m1

/-- `record_name.split('.')[-1]`. -/
def lastSegment (s : String) : String :=
  String.mk ((splitChar '.' s.toList).getLastD [])

/-- `SchemaStore.get`: exact match first, then the name without its
namespace; `KeyError` when neither resolves. -/
def store_get (m : Store) (record_name : String) : Except PyErr StoreEntry :=
  match storeLookup m record_name with
  | some e => .ok e
  | none =>
    match storeLookup m (lastSegment record_name) with
    | some e => .ok e
    | none => .error .keyError

/-- First actual use of a fetched entry: attribute access on the
`InvalidSchemaSpecification` placeholder raises `ValueError`. -/
def useEntry : StoreEntry → Except PyErr RecordSchema
  | .cls s => .ok s
  | .invalid _ => .error .valueError

/-! ## `load_json_dct` -/

def SCHEMA_FIELD_NAME : String := "$schema"

/-- `dct.pop(k)`: the value (when present) and the updated dictionary. -/
def dpop (dct : List (String × PyVal)) (k : String) :
    Option PyVal × List (String × PyVal) :=
  (lookupVal dct k, dct.filter (fun p => p.1 != k))

/-- `loader(schema, dct)` when the schema came from the store: a real class
runs `from_json_compatible`; the poison placeholder raises `ValueError` at
its first attribute access (`schema._fields`), or `TypeError` when the
dictionary is empty and the placeholder is called directly. -/
def loader_entry (env : Env) (e : StoreEntry) (dct : List (String × PyVal)) :
    Except PyErr PyVal :=
  match e with
  | .cls s => from_json_compatible env s dct
  | .invalid _ => if dct.isEmpty then .error .typeError else .error .valueError

/-- `load_json_dct(dct, record_store, schema)`: without an explicit schema,
pop the `$schema` tag (its absence is a `ParseError`), resolve it through
the store (`KeyError` becomes `ParseError`); with an explicit schema, still
pop the tag if present but ignore its value.  The returned dictionary is
the caller's dictionary after these in-place mutations. -/
def load_json_dct (env : Env) (dct : List (String × PyVal))
    (record_store : Option Store) (auto_reg : Store)
    (schema? : Option RecordSchema) :
    Except PyErr PyVal × List (String × PyVal) :=
  match schema? with
  | none =>
    let store := record_store.getD auto_reg
    match dpop dct SCHEMA_FIELD_NAME with
    | (none, _) => (.error .parseError, dct)
    | (some nameVal, dct') =>
      match nameVal with
      | .vstr schema_name =>
        match store_get store schema_name with
        | .error _ => (.error .parseError, dct')
        | .ok e => (loader_entry env e dct', dct')
      | _ => (.error .parseError, dct')
  | some schema =>
    let dct' := if hasKey dct SCHEMA_FIELD_NAME then (dpop dct SCHEMA_FIELD_NAME).2 else dct
    (from_json_compatible env schema dct', dct')

/-! ## Schema-graph traversal (`source_generation.CachedGraphTraverser`) -/

/-- A node of the schema graph: a record class (by arena index) or a
`Field` instance.  Field nodes are identified structurally; in Python they
are identified by object identity, and the two coincide along the recursion
paths of the graphs considered here. -/
inductive GNode where
  | record (i : Nat)
  | typ (t : FType)
  deriving DecidableEq, Repr

/-- The traverser's mutable state: the `descendants` cache (record nodes
only) and the `started` set marking the active recursion path. -/
structure Traverser where
  descendants : List (GNode × List Nat)
  started : List GNode
  deriving Repr

def gLookup (l : List (GNode × List Nat)) (n : GNode) : Option (List Nat) :=
  match l with
  | [] => none
  | (n', s) :: rest => if n' = n then some s else gLookup rest n

def gInsert (l : List (GNode × List Nat)) (n : GNode) (s : List Nat) :
    List (GNode × List Nat) :=
  (n, s) :: l.filter (fun p => p.1 ≠ n)

/-- `set.add`. -/
def sAdd (l : List GNode) (n : GNode) : List GNode :=
  if n ∈ l then l else n :: l

/-- `set` union on descendant sets (kept as duplicate-free lists). -/
def unionNat (a b : List Nat) : List Nat :=
  a ++ b.filter (fun x => !a.contains x)

/-- Structural size of a field type (termination measure only). -/
def ftypeSize : FType → Nat
  | .list t => 1 + ftypeSize t
  | .map t => 1 + ftypeSize t
  | .text => 1
  | .bytes _ => 1
  | .integer _ => 1
  | .boolean => 1
  | .float _ => 1
  | .enum _ => 1
  | .subrecord _ => 1
  | .date => 1
  | .datetime => 1

/-- Size of a field list (termination measure only). -/
def fieldsSize : List (String × FieldSpec) → Nat
  | [] => 0
  | (_, f) :: rest => 1 + ftypeSize f.ftype + fieldsSize rest

/-- Measure of a graph node for termination: a record node dominates the
walk over its own field list. -/
def nodeMeasure (env : Env) : GNode → Nat
  | .record i => 2 + fieldsSize (((env[i]?).map RecordSchema.fields).getD [])
  | .typ t => ftypeSize t

mutual

/-- `CachedGraphTraverser.find_descendants(a, max_depth)`: return the cached
set when present; otherwise mark `a` as started, expand record fields /
`List`/`Map` element types / `SubRecord` targets (the target is added to the
set, but is only expanded — at `max_depth - 1` — when it is not already on
the active path), cache the result for record nodes, and unmark `a`.  When
`max_depth` has reached zero nothing is expanded and — as in the source —
`a` is *not* removed from `started`. -/
def find_descendants (env : Env) (st : Traverser) (a : GNode) (max_depth : Nat) :
    Traverser × List Nat :=
  match gLookup st.descendants a with
  | some s => (st, s)
  | none =>
    let st1 : Traverser := { st with started := sAdd st.started a }
    if 0 < max_depth then
      match a with
      | .record i =>
        let res := fd_fold env st1 (((env[i]?).map RecordSchema.fields).getD []) max_depth
        let st3 : Traverser :=
          { res.1 with descendants := gInsert res.1.descendants a res.2 }
        ({ st3 with started := st3.started.erase a }, res.2)
      | .typ t =>
        match t with
        | .list elemT =>
          let res := find_descendants env st1 (.typ elemT) max_depth
          ({ res.1 with started := res.1.started.erase a }, res.2)
        | .map valT =>
          let res := find_descendants env st1 (.typ valT) max_depth
          ({ res.1 with started := res.1.started.erase a }, res.2)
        | .subrecord j =>
          if st1.started.contains (.record j) then
            ({ st1 with started := st1.started.erase a }, [j])
          else
            let res := find_descendants env st1 (.record j) (max_depth - 1)
            ({ res.1 with started := res.1.started.erase a }, unionNat [j] res.2)
        | _ => ({ st1 with started := st1.started.erase a }, [])
    else (st1, [])
  termination_by (max_depth, nodeMeasure env a)
  decreasing_by
  all_goals
    (simp_wf
     first
       | (apply Prod.Lex.left
          omega)
       | (apply Prod.Lex.right
          simp only [nodeMeasure, ftypeSize, fieldsSize]
          omega))

/-- The loop `for _, field in a._fields.iteritems(): subs |= ...`. -/
def fd_fold (env : Env) (st : Traverser) (fl : List (String × FieldSpec))
    (max_depth : Nat) : Traverser × List Nat :=
  match fl with
  | [] => (st, [])
  | (_, f) :: rest =>
    let r1 := find_descendants env st (.typ f.ftype) max_depth
    let r2 := fd_fold env r1.1 rest max_depth
    (r2.1, unionNat r1.2 r2.2)
  termination_by (max_depth, 1 + fieldsSize fl)
  decreasing_by
  all_goals
    (simp_wf
     first
       | (apply Prod.Lex.left
          omega)
       | (apply Prod.Lex.right
          simp only [nodeMeasure, ftypeSize, fieldsSize]
          omega))

end

/-! ## Validity of native values

`goodValue env t v` states that `v` is a value of the declared native type
of `t` (spec §4.1: Text holds `unicode`, Bytes holds byte strings, Integer
holds non-bool integers, …) whose components are in range.  For record
instances, `goodInstance` additionally requires the attribute list to be
exactly the declared fields in declaration order with unique names (which
`Record.__init__` guarantees), each value being `None` — with a `None`
declared default — or a good native value.  The `None`-default side
condition is the amendment to the round-trip law forced by
`roundtrip_counterexample` below. -/

mutual

def goodValue (env : Env) : FType → PyVal → Bool
  | .text, v =>
    match v with
    | .vstr _ => true
    | _ => false
  | .bytes _, v =>
    match v with
    | .vbytes bs => bs.all (· < 256)
    | _ => false
  | .integer _, v =>
    match v with
    | .vint _ => true
    | _ => false
  | .boolean, v =>
    match v with
    | .vbool _ => true
    | _ => false
  | .float _, v =>
    match v with
    | .vfloat _ => true
    | _ => false
  | .enum values, v =>
    match v with
    | .vstr s => values.contains s
    | _ => false
  | .date, v =>
    match v with
    | .vdate y m d => validDate y m d
    | _ => false
  | .datetime, v =>
    match v with
    | .vdatetime y mo d h mi s us =>
      validDate y mo d && validTime h mi s && decide (us ≤ 999999)
    | _ => false
  | .list t, v =>
    match v with
    | .vlist xs => goodList env t xs
    | _ => false
  | .map t, v =>
    match v with
    | .vdict entries => goodDict env t entries
    | _ => false
  | .subrecord i, v =>
    match env[i]? with
    | some s => goodInstance env s v
    | none => false
  termination_by t v => (sizeOf v, 2)

def goodList (env : Env) (t : FType) : List PyVal → Bool
  | [] => true
  | x :: rest => goodValue env t x && goodList env t rest
  termination_by xs => (sizeOf xs, 0)

def goodDict (env : Env) (t : FType) : List (String × PyVal) → Bool
  | [] => true
  | (_, v) :: rest => goodValue env t v && goodDict env t rest
  termination_by entries => (sizeOf entries, 0)

def goodInstance (env : Env) (s : RecordSchema) : PyVal → Bool
  | .vrecord n fields =>
    n == s.name && decide (fields.map Prod.fst = s.fields.map Prod.fst) &&
      decide ((s.fields.map Prod.fst).Nodup) && goodFields env s.fields fields
  | _ => false
  termination_by v => (sizeOf v, 1)

def goodFields (env : Env) : List (String × FieldSpec) → List (String × PyVal) → Bool
  | [], [] => true
  | [], _ :: _ => false
  | _ :: _, [] => false
  | (_, f) :: fs, (_, v) :: vs =>
    (if isNone v then isNone f.default else goodValue env f.ftype v) && goodFields env fs vs
  termination_by fs vs => (sizeOf vs, 0)

end

/-! ## Helper lemmas for the round-trip proof -/

theorem mem_snd_sizeOf_lt {vs : List (String × PyVal)} {k : String} {v : PyVal}
    (h : (k, v) ∈ vs) : sizeOf v < sizeOf vs := by
  induction vs with
  | nil => cases h
  | cons p rest ih =>
    rcases List.mem_cons.mp h with he | hm
    · subst he
      simp only [List.cons.sizeOf_spec, Prod.mk.sizeOf_spec]
      omega
    · have := ih hm
      simp only [List.cons.sizeOf_spec]
      omega

theorem b64char_ascii : ∀ n < 64, (b64char n).toNat < 128 := by decide

/-- Every character of an encoded base64 string is ASCII. -/
theorem encodeB64_ascii : ∀ (bs : List Nat), (∀ b ∈ bs, b < 256) →
    ∀ c ∈ encodeB64 bs, c.toNat < 128 := by
  intro bs
  induction bs using encodeB64.induct with
  | case1 =>
    intro _ c hc
    cases hc
  | case2 a =>
    intro h c hc
    have ha : a < 256 := h a (by simp)
    rw [show encodeB64 [a] = [b64char (a / 4), b64char (a % 4 * 16), '=', '='] from rfl] at hc
    simp only [List.mem_cons, List.not_mem_nil, or_false] at hc
    rcases hc with hc | hc | hc | hc <;> subst hc
    · exact b64char_ascii _ (by omega)
    · exact b64char_ascii _ (by omega)
    · decide
    · decide
  | case3 a b =>
    intro h c hc
    have ha : a < 256 := h a (by simp)
    have hb : b < 256 := h b (by simp)
    rw [show encodeB64 [a, b] =
      [b64char (a / 4), b64char (a % 4 * 16 + b / 16), b64char (b % 16 * 4), '='] from rfl] at hc
    simp only [List.mem_cons, List.not_mem_nil, or_false] at hc
    rcases hc with hc | hc | hc | hc <;> subst hc
    · exact b64char_ascii _ (by omega)
    · exact b64char_ascii _ (by omega)
    · exact b64char_ascii _ (by omega)
    · decide
  | case4 a b cc rest ih =>
    intro h c hc
    have ha : a < 256 := h a (by simp)
    have hb : b < 256 := h b (by simp)
    have hcc : cc < 256 := h cc (by simp)
    have hrest : ∀ x ∈ rest, x < 256 := fun x hx => h x (by simp [hx])
    rw [show encodeB64 (a :: b :: cc :: rest) =
      b64char (a / 4) :: b64char (a % 4 * 16 + b / 16) ::
        b64char (b % 16 * 4 + cc / 64) :: b64char (cc % 64) :: encodeB64 rest from rfl] at hc
    simp only [List.mem_cons] at hc
    rcases hc with hc | hc | hc | hc | hc
    pick_goal 5
    · exact ih hrest c hc
    all_goals subst hc
    · exact b64char_ascii _ (by omega)
    · exact b64char_ascii _ (by omega)
    · exact b64char_ascii _ (by omega)
    · exact b64char_ascii _ (by omega)

/-- `text.encode("ascii")` succeeds on all-ASCII text. -/
theorem asciiEncode_isSome {cs : List Char} (h : ∀ c ∈ cs, c.toNat < 128) :
    ∃ bs, asciiEncode (String.mk cs) = some bs := by
  unfold asciiEncode
  rw [toList_mk]
  induction cs with
  | nil => exact ⟨[], rfl⟩
  | cons c rest ih =>
    have hc : c.toNat < 128 := h c (List.mem_cons_self c rest)
    obtain ⟨bs, hbs⟩ := ih fun x hx => h x (List.mem_cons_of_mem _ hx)
    refine ⟨c.toNat :: bs, ?_⟩
    simp only [List.mapM_cons, asciiEncodeChar, if_pos hc, hbs]
    rfl

/-- Element-wise list round trip from a pointwise round trip. -/
theorem dumpList_roundtrip (env : Env) (t : FType) :
    ∀ xs : List PyVal,
      (∀ x ∈ xs, ∃ w, dumpF env t x = .ok w ∧ loadF env t w = .ok x) →
      ∃ ws, dumpList env t xs = .ok ws ∧ loadList env t ws = .ok xs := by
  intro xs h
  induction xs with
  | nil => exact ⟨[], by rw [dumpList], by rw [loadList]⟩
  | cons x rest ih =>
    obtain ⟨w, hdw, hlw⟩ := h x (List.mem_cons_self x rest)
    obtain ⟨ws, hdws, hlws⟩ := ih fun y hy => h y (List.mem_cons_of_mem _ hy)
    refine ⟨w :: ws, ?_, ?_⟩
    · rw [dumpList, hdw, hdws]
      rfl
    · rw [loadList, hlw, hlws]
      rfl

/-- Entry-wise map round trip from a pointwise round trip. -/
theorem dumpDict_roundtrip (env : Env) (t : FType) :
    ∀ entries : List (String × PyVal),
      (∀ kv ∈ entries, ∃ w, dumpF env t kv.2 = .ok w ∧ loadF env t w = .ok kv.2) →
      ∃ ws, dumpDict env t entries = .ok ws ∧ loadDict env t ws = .ok entries := by
  intro entries h
  induction entries with
  | nil => exact ⟨[], by rw [dumpDict], by rw [loadDict]⟩
  | cons kv rest ih =>
    obtain ⟨k, v⟩ := kv
    obtain ⟨w, hdw, hlw⟩ := h (k, v) (List.mem_cons_self _ rest)
    obtain ⟨ws, hdws, hlws⟩ := ih fun y hy => h y (List.mem_cons_of_mem _ hy)
    refine ⟨(k, w) :: ws, ?_, ?_⟩
    · rw [dumpDict, hdw, hdws]
      rfl
    · rw [loadDict, hlw, hlws]
      rfl

theorem isNone_iff {v : PyVal} : isNone v = true ↔ v = .vnone := by
  cases v <;> simp [isNone]

theorem goodFields_nil (env : Env) : goodFields env [] [] = true := by
  rw [goodFields]

theorem goodFields_cons (env : Env) (k : String) (f : FieldSpec)
    (fs : List (String × FieldSpec)) (k' : String) (v : PyVal)
    (vs : List (String × PyVal)) :
    goodFields env ((k, f) :: fs) ((k', v) :: vs) =
      ((if isNone v then isNone f.default else goodValue env f.ftype v) &&
        goodFields env fs vs) := by
  rw [goodFields]

theorem dumpFields_nil (env : Env) (inst : List (String × PyVal)) :
    dumpFields env [] inst = .ok [] := by
  rw [dumpFields]

theorem dumpFields_cons (env : Env) (k : String) (f : FieldSpec)
    (fs : List (String × FieldSpec)) (inst : List (String × PyVal)) :
    dumpFields env ((k, f) :: fs) inst =
      match lookupVal inst k with
      | none => .error .attributeError
      | some val =>
        if isNone val then dumpFields env fs inst
        else
          (dumpF env f.ftype val).bind fun w =>
            (dumpFields env fs inst).map fun d => (k, w) :: d := by
  rw [dumpFields]
  cases lookupVal inst k <;> rfl

theorem loadFields_nil (env : Env) (sfields : List (String × FieldSpec)) :
    loadFields env sfields [] = .ok [] := by
  rw [loadFields]

theorem loadFields_cons (env : Env) (sfields : List (String × FieldSpec))
    (key : String) (w : PyVal) (rest : List (String × PyVal)) :
    loadFields env sfields ((key, w) :: rest) =
      match lookupField sfields key with
      | none => .error .parseError
      | some f =>
        (loadF env f.ftype w).bind fun v =>
          (loadFields env sfields rest).map fun ks => (key, v) :: ks := by
  rw [loadFields]

/-- Pointwise strengthening of `Forall₂` that may use membership. -/
theorem forall2_imp_mem {α β : Type} {R S : α → β → Prop} :
    ∀ {l1 : List α} {l2 : List β}, List.Forall₂ R l1 l2 →
      (∀ a b, a ∈ l1 → b ∈ l2 → R a b → S a b) → List.Forall₂ S l1 l2 := by
  intro l1 l2 h
  induction h with
  | nil => intro _; exact List.Forall₂.nil
  | cons hab htail ih =>
    intro H
    exact List.Forall₂.cons
      (H _ _ (List.mem_cons_self _ _) (List.mem_cons_self _ _) hab)
      (ih fun a b ha hb hr => H a b (List.mem_cons_of_mem _ ha) (List.mem_cons_of_mem _ hb) hr)

theorem goodFields_forall2 {env : Env} :
    ∀ {fs : List (String × FieldSpec)} {vs : List (String × PyVal)},
      goodFields env fs vs = true →
      List.Forall₂ (fun (kf : String × FieldSpec) (kv : String × PyVal) =>
        (isNone kv.2 = true ∧ kf.2.default = .vnone) ∨
        (isNone kv.2 = false ∧ goodValue env kf.2.ftype kv.2 = true)) fs vs := by
  intro fs
  induction fs with
  | nil =>
    intro vs h
    cases vs with
    | nil => exact List.Forall₂.nil
    | cons kv vs' =>
      obtain ⟨k', v⟩ := kv
      rw [show goodFields env [] ((k', v) :: vs') = false from by rw [goodFields]] at h
      cases h
  | cons kf fs' ih =>
    intro vs h
    obtain ⟨k, f⟩ := kf
    cases vs with
    | nil =>
      rw [show goodFields env ((k, f) :: fs') [] = false from by rw [goodFields]] at h
      cases h
    | cons kv vs' =>
      obtain ⟨k', v⟩ := kv
      rw [goodFields_cons] at h
      rw [Bool.and_eq_true] at h
      refine List.Forall₂.cons ?_ (ih h.2)
      by_cases hn : isNone v = true
      · left
        refine ⟨hn, ?_⟩
        have := h.1
        rw [if_pos hn] at this
        exact isNone_iff.mp this
      · right
        have := h.1
        rw [if_neg hn] at this
        exact ⟨by simpa using hn, this⟩

theorem lookupVal_cons_self (k : String) (v : PyVal) (vs : List (String × PyVal)) :
    lookupVal ((k, v) :: vs) k = some v := by
  simp [lookupVal]

theorem lookupVal_cons_ne {k0 k : String} (v0 : PyVal) (vs : List (String × PyVal))
    (h : k0 ≠ k) : lookupVal ((k0, v0) :: vs) k = lookupVal vs k := by
  simp [lookupVal, h]

theorem lookupField_cons_self (k : String) (f : FieldSpec)
    (fs : List (String × FieldSpec)) : lookupField ((k, f) :: fs) k = some f := by
  simp [lookupField]

theorem lookupField_cons_ne {k0 k : String} (f0 : FieldSpec)
    (fs : List (String × FieldSpec)) (h : k0 ≠ k) :
    lookupField ((k0, f0) :: fs) k = lookupField fs k := by
  simp [lookupField, h]

theorem lookupVal_eq_none_of_not_mem_keys {l : List (String × PyVal)} {k : String}
    (h : k ∉ l.map Prod.fst) : lookupVal l k = none := by
  induction l with
  | nil => rfl
  | cons p rest ih =>
    obtain ⟨k0, v0⟩ := p
    simp only [List.map_cons, List.mem_cons] at h
    push_neg at h
    rw [lookupVal_cons_ne v0 rest (fun he => h.1 he.symm)]
    exact ih h.2

theorem keys_filter_subset {l : List (String × PyVal)} {q : String × PyVal → Bool}
    {k : String} (h : k ∈ (l.filter q).map Prod.fst) : k ∈ l.map Prod.fst := by
  obtain ⟨p, hp, hk⟩ := List.mem_map.mp h
  exact List.mem_map.mpr ⟨p, List.mem_of_mem_filter hp, hk⟩

/-- The field list built by `Record.__init__` (`schema(**kwargs)` with the
keyword arguments produced by a sparse dump) equals the original attribute
list, provided `None`-valued fields have a `None` default. -/
theorem record_init_fields_eq :
    ∀ (fs : List (String × FieldSpec)) (vs kwargs : List (String × PyVal)),
      vs.map Prod.fst = fs.map Prod.fst →
      (fs.map Prod.fst).Nodup →
      List.Forall₂ (fun (kf : String × FieldSpec) (kv : String × PyVal) =>
        isNone kv.2 = true → kf.2.default = .vnone) fs vs →
      (∀ k, k ∈ fs.map Prod.fst →
        lookupVal kwargs k = lookupVal (vs.filter fun kv => !isNone kv.2) k) →
      (fs.map fun kf =>
        (kf.1, match lookupVal kwargs kf.1 with
               | some v => v
               | none => default_value kf.2)) = vs := by
  intro fs
  induction fs with
  | nil =>
    intro vs kwargs hkeys _ _ _
    simp only [List.map_nil] at hkeys ⊢
    exact (List.map_eq_nil_iff.mp hkeys).symm
  | cons kf fs' ih =>
    intro vs kwargs hkeys hnd hf2 hlk
    obtain ⟨k0, f0⟩ := kf
    cases vs with
    | nil => cases hkeys
    | cons kv vs' =>
      obtain ⟨k0X, v0⟩ := kv
      simp only [List.map_cons, List.cons.injEq] at hkeys
      obtain ⟨hk0X, htl⟩ := hkeys
      subst hk0X
      simp only [List.map_cons, List.nodup_cons] at hnd
      cases hf2 with
      | cons hhead htail =>
        have hk0Xnotin : k0X ∉ vs'.map Prod.fst := by
          rw [htl]
          exact hnd.1
        have hself : lookupVal kwargs k0X =
            lookupVal (List.filter (fun kv => !isNone kv.2) ((k0X, v0) :: vs')) k0X :=
          hlk k0X (by simp)
        have hhd : (k0X, match lookupVal kwargs k0X with
            | some v => v
            | none => default_value f0) = (k0X, v0) := by
          by_cases hn : isNone v0 = true
          · have hdrop : List.filter (fun kv => !isNone kv.2) ((k0X, v0) :: vs') =
                List.filter (fun kv => !isNone kv.2) vs' := by
              simp [List.filter_cons, hn]
            rw [hdrop] at hself
            have : lookupVal (List.filter (fun kv => !isNone kv.2) vs') k0X = none :=
              lookupVal_eq_none_of_not_mem_keys fun hm => hk0Xnotin (keys_filter_subset hm)
            rw [this] at hself
            rw [hself]
            have hv0 : v0 = .vnone := isNone_iff.mp hn
            have hdef : f0.default = .vnone := by simpa using hhead hn
            simp [default_value, hv0, hdef]
          · have hkeep : List.filter (fun kv => !isNone kv.2) ((k0X, v0) :: vs') =
                (k0X, v0) :: List.filter (fun kv => !isNone kv.2) vs' := by
              simp [List.filter_cons, hn]
            rw [hkeep, lookupVal_cons_self] at hself
            rw [hself]
        have htail2 : (fs'.map fun kf =>
            (kf.1, match lookupVal kwargs kf.1 with
                   | some v => v
                   | none => default_value kf.2)) = vs' := by
          refine ih vs' kwargs htl hnd.2 htail ?_
          intro k hk
          have hkne : k0X ≠ k := fun he => hnd.1 (he ▸ hk)
          have := hlk k (by simp [hk])
          rw [this]
          by_cases hn : isNone v0 = true
          · simp [List.filter_cons, hn]
          · simp only [List.filter_cons, Bool.not_eq_true]
            rw [if_pos (by simp [hn])]
            exact lookupVal_cons_ne _ _ hkne
        simp only [List.map_cons, hhd, htail2]

/-- `loadFields` reproduces the original values from a dumped dictionary,
given a per-entry load fact. -/
theorem loadFields_of_forall2 (env : Env) (sfields : List (String × FieldSpec)) :
    ∀ {d kwargs : List (String × PyVal)},
      List.Forall₂ (fun (kw : String × PyVal) (kv : String × PyVal) =>
        kw.1 = kv.1 ∧ ∃ f, lookupField sfields kw.1 = some f ∧
          loadF env f.ftype kw.2 = .ok kv.2) d kwargs →
      loadFields env sfields d = .ok kwargs := by
  intro d kwargs h
  induction h with
  | nil => exact loadFields_nil env sfields
  | cons hab htail ih =>
    rename_i kw kv d' kwargs'
    obtain ⟨hk, f, hlf, hload⟩ := hab
    obtain ⟨k1, w1⟩ := kw
    obtain ⟨k2, v2⟩ := kv
    simp only at hk hlf hload
    subst hk
    rw [loadFields_cons]
    simp only [hlf, hload, ih]
    rfl

/-- The loop of `to_json_compatible` produces the sparse dictionary of the
non-`None` fields, and each entry loads back to the original value.  The
`inst` parameter carries the full attribute list of the record, which stays
fixed while the schema fields are walked. -/
theorem dumpFields_roundtrip_aux (env : Env) :
    ∀ (fs : List (String × FieldSpec)) (vs inst : List (String × PyVal)),
      vs.map Prod.fst = fs.map Prod.fst →
      (fs.map Prod.fst).Nodup →
      (∀ k, k ∈ fs.map Prod.fst → lookupVal inst k = lookupVal vs k) →
      List.Forall₂ (fun (kf : String × FieldSpec) (kv : String × PyVal) =>
        (isNone kv.2 = true ∧ kf.2.default = .vnone) ∨
        (isNone kv.2 = false ∧ ∃ w, dumpF env kf.2.ftype kv.2 = .ok w ∧
          loadF env kf.2.ftype w = .ok kv.2)) fs vs →
      ∃ d, dumpFields env fs inst = .ok d ∧
        d.map Prod.fst = (vs.filter fun kv => !isNone kv.2).map Prod.fst ∧
        List.Forall₂ (fun (kw : String × PyVal) (kv : String × PyVal) =>
          kw.1 = kv.1 ∧ ∃ f, lookupField fs kw.1 = some f ∧
            loadF env f.ftype kw.2 = .ok kv.2)
          d (vs.filter fun kv => !isNone kv.2) := by
  intro fs
  induction fs with
  | nil =>
    intro vs inst hkeys _ _ _
    have hvs : vs = [] := by
      cases vs with
      | nil => rfl
      | cons kv vs' => cases hkeys
    subst hvs
    exact ⟨[], dumpFields_nil env inst, by simp, List.Forall₂.nil⟩
  | cons kf fs' ih =>
    intro vs inst hkeys hnd hlk hF
    obtain ⟨k0, f0⟩ := kf
    cases vs with
    | nil => cases hkeys
    | cons kv vs' =>
      obtain ⟨k0X, v0⟩ := kv
      simp only [List.map_cons, List.cons.injEq] at hkeys
      obtain ⟨hk0, htl⟩ := hkeys
      subst hk0
      simp only [List.map_cons, List.nodup_cons] at hnd
      cases hF with
      | cons hhead htail =>
        have hk0notin : k0X ∉ vs'.map Prod.fst := by
          rw [htl]
          exact hnd.1
        have hlk0 : lookupVal inst k0X = some v0 := by
          rw [hlk k0X (by simp), lookupVal_cons_self]
        have hlk' : ∀ k, k ∈ fs'.map Prod.fst → lookupVal inst k = lookupVal vs' k := by
          intro k hk
          have hkne : k0X ≠ k := fun he => hnd.1 (he ▸ hk)
          rw [hlk k (by simp [hk]), lookupVal_cons_ne _ _ hkne]
        obtain ⟨d', hd', hkeys', hF'⟩ := ih vs' inst htl hnd.2 hlk' htail
        have lift : ∀ (d0 : List (String × PyVal)),
            d0.map Prod.fst = (vs'.filter fun kv => !isNone kv.2).map Prod.fst →
            List.Forall₂ (fun (kw : String × PyVal) (kv : String × PyVal) =>
              kw.1 = kv.1 ∧ ∃ f, lookupField fs' kw.1 = some f ∧
                loadF env f.ftype kw.2 = .ok kv.2)
              d0 (vs'.filter fun kv => !isNone kv.2) →
            List.Forall₂ (fun (kw : String × PyVal) (kv : String × PyVal) =>
              kw.1 = kv.1 ∧ ∃ f, lookupField ((k0X, f0) :: fs') kw.1 = some f ∧
                loadF env f.ftype kw.2 = .ok kv.2)
              d0 (vs'.filter fun kv => !isNone kv.2) := by
          intro d0 hd0keys hf0
          refine forall2_imp_mem hf0 ?_
          intro a b ha _ hr
          obtain ⟨hab, f, hf, hl⟩ := hr
          have hamem : a.1 ∈ (vs'.filter fun kv => !isNone kv.2).map Prod.fst := by
            rw [← hd0keys]
            exact List.mem_map.mpr ⟨a, ha, rfl⟩
          have hane : k0X ≠ a.1 := fun he =>
            hk0notin (keys_filter_subset (he ▸ hamem))
          exact ⟨hab, f, by rw [lookupField_cons_ne _ _ hane]; exact hf, hl⟩
        rcases hhead with ⟨hn, _⟩ | ⟨hn, w, hdw, hlw⟩
        · -- the head value is None: skipped by the dump, dropped by the filter
          have hdrop : List.filter (fun kv => !isNone kv.2) ((k0X, v0) :: vs') =
              List.filter (fun kv => !isNone kv.2) vs' := by
            simp [List.filter_cons, hn]
          refine ⟨d', ?_, ?_, ?_⟩
          · rw [dumpFields_cons, hlk0]
            simp only [hn, if_true]
            exact hd'
          · rw [hdrop]
            exact hkeys'
          · rw [hdrop]
            exact lift d' hkeys' hF'
        · -- the head value is kept
          have hkeep : List.filter (fun kv => !isNone kv.2) ((k0X, v0) :: vs') =
              (k0X, v0) :: List.filter (fun kv => !isNone kv.2) vs' := by
            simp [List.filter_cons, hn]
          refine ⟨(k0X, w) :: d', ?_, ?_, ?_⟩
          · rw [dumpFields_cons, hlk0]
            simp only [hn, if_false, Bool.false_eq_true]
            rw [hdw, hd']
            rfl
          · rw [hkeep]
            simpa using hkeys'
          · rw [hkeep]
            refine List.Forall₂.cons ?_ (lift d' hkeys' hF')
            exact ⟨rfl, f0, lookupField_cons_self _ _ _, hlw⟩

/-! Per-variant unfolding equations for the mutually recursive engine. -/

theorem dumpF_text (env : Env) (v : PyVal) : dumpF env .text v = textDump v := by
  rw [dumpF]

theorem dumpF_bytes (env : Env) (ce : Bool) (v : PyVal) :
    dumpF env (.bytes ce) v = bytesDump ce v := by
  rw [dumpF]

theorem dumpF_integer (env : Env) (sz : Nat) (n : Int) :
    dumpF env (.integer sz) (.vint n) = .ok (.vint n) := by
  rw [dumpF]

theorem dumpF_boolean (env : Env) (b : Bool) :
    dumpF env .boolean (.vbool b) = .ok (.vbool b) := by
  rw [dumpF]
  simp [valueMapHas, pyBool]

theorem dumpF_float (env : Env) (sz : Nat) (q : Rat) :
    dumpF env (.float sz) (.vfloat q) = .ok (.vfloat q) := by
  rw [dumpF]

theorem dumpF_enum (env : Env) (values : List String) (v : PyVal) :
    dumpF env (.enum values) v =
      (match enumHasE values v with
       | .error e => .error e
       | .ok true => textDump v
       | .ok false => .error .valueError) := by
  rw [dumpF]

theorem dumpF_date (env : Env) (y m d : Nat) :
    dumpF env .date (.vdate y m d) = .ok (.vstr (formatDate y m d)) := by
  rw [dumpF]

theorem dumpF_datetime (env : Env) (y mo d h mi s us : Nat) :
    dumpF env .datetime (.vdatetime y mo d h mi s us) =
      .ok (.vstr (formatDateTime y mo d h mi s us)) := by
  rw [dumpF]

theorem dumpF_list (env : Env) (t : FType) (xs : List PyVal) :
    dumpF env (.list t) (.vlist xs) = (dumpList env t xs).map .vlist := by
  rw [dumpF]

theorem dumpF_map (env : Env) (t : FType) (entries : List (String × PyVal)) :
    dumpF env (.map t) (.vdict entries) = (dumpDict env t entries).map .vdict := by
  rw [dumpF]

theorem dumpF_subrecord (env : Env) (i : Nat) (v : PyVal) :
    dumpF env (.subrecord i) v =
      (match env[i]? with
       | none => .error .attributeError
       | some s =>
         match v with
         | .vrecord n fields =>
           if n = s.name then (to_json_compatible env s (.vrecord n fields)).map .vdict
           else .error .valueError
         | _ => .error .valueError) := by
  rw [dumpF]

theorem loadF_text (env : Env) (v : PyVal) : loadF env .text v = textLoad v := by
  rw [loadF]

theorem loadF_bytes (env : Env) (ce : Bool) (v : PyVal) :
    loadF env (.bytes ce) v = bytesLoad ce v := by
  rw [loadF]

theorem loadF_integer (env : Env) (sz : Nat) (n : Int) :
    loadF env (.integer sz) (.vint n) = .ok (.vint n) := by
  rw [loadF]

theorem loadF_boolean (env : Env) (b : Bool) :
    loadF env .boolean (.vbool b) = .ok (.vbool b) := by
  rw [loadF]
  simp [valueMapHas, pyBool]

theorem loadF_float (env : Env) (sz : Nat) (q : Rat) :
    loadF env (.float sz) (.vfloat q) = .ok (.vfloat q) := by
  rw [loadF]

theorem loadF_enum (env : Env) (values : List String) (v : PyVal) :
    loadF env (.enum values) v =
      (match textLoad v with
       | .error e => .error e
       | .ok parsed =>
         if !enumHas values parsed && !isNone parsed then .error .parseError
         else .ok parsed) := by
  rw [loadF]

theorem loadF_date (env : Env) (v : PyVal) : loadF env .date v = dateLoad v := by
  rw [loadF]

theorem loadF_datetime (env : Env) (v : PyVal) : loadF env .datetime v = datetimeLoad v := by
  rw [loadF]

theorem loadF_list (env : Env) (t : FType) (xs : List PyVal) :
    loadF env (.list t) (.vlist xs) = (loadList env t xs).map .vlist := by
  rw [loadF]

theorem loadF_map (env : Env) (t : FType) (entries : List (String × PyVal)) :
    loadF env (.map t) (.vdict entries) = (loadDict env t entries).map .vdict := by
  rw [loadF]

theorem loadF_subrecord (env : Env) (i : Nat) (v : PyVal) :
    loadF env (.subrecord i) v =
      (match env[i]? with
       | none => .error .attributeError
       | some s =>
         match v with
         | .vdict entries => from_json_compatible env s entries
         | _ => .error .typeError) := by
  rw [loadF]

theorem to_json_compatible_record (env : Env) (s : RecordSchema) (nm : String)
    (fields : List (String × PyVal)) :
    to_json_compatible env s (.vrecord nm fields) = dumpFields env s.fields fields := by
  rw [to_json_compatible]

theorem from_json_compatible_eq (env : Env) (s : RecordSchema)
    (dct : List (String × PyVal)) :
    from_json_compatible env s dct =
      (loadFields env s.fields dct).map fun kwargs => record_init s kwargs := by
  rw [from_json_compatible]

theorem goodList_mem {env : Env} {t : FType} :
    ∀ {xs : List PyVal}, goodList env t xs = true → ∀ x ∈ xs, goodValue env t x = true := by
  intro xs
  induction xs with
  | nil =>
    intro _ x hx
    cases hx
  | cons y rest ih =>
    intro h x hx
    rw [show goodList env t (y :: rest) = (goodValue env t y && goodList env t rest) from
      by rw [goodList]] at h
    rw [Bool.and_eq_true] at h
    rcases List.mem_cons.mp hx with rfl | hm
    · exact h.1
    · exact ih h.2 x hm

theorem goodDict_mem {env : Env} {t : FType} :
    ∀ {entries : List (String × PyVal)}, goodDict env t entries = true →
      ∀ kv ∈ entries, goodValue env t kv.2 = true := by
  intro entries
  induction entries with
  | nil =>
    intro _ kv hkv
    cases hkv
  | cons p rest ih =>
    intro h kv hkv
    obtain ⟨k, v⟩ := p
    rw [show goodDict env t ((k, v) :: rest) = (goodValue env t v && goodDict env t rest) from
      by rw [goodDict]] at h
    rw [Bool.and_eq_true] at h
    rcases List.mem_cons.mp hkv with rfl | hm
    · exact h.1
    · exact ih h.2 kv hm

theorem mem_sizeOf_lt {xs : List PyVal} {x : PyVal} (h : x ∈ xs) : sizeOf x < sizeOf xs := by
  induction xs with
  | nil => cases h
  | cons y rest ih =>
    rcases List.mem_cons.mp h with rfl | hm
    · simp only [List.cons.sizeOf_spec]
      omega
    · have := ih hm
      simp only [List.cons.sizeOf_spec]
      omega

/-- Master round-trip induction on value size: a good native value dumps
successfully and its wire form loads back to the identical value; a good
record instance serializes to the sparse dictionary, which deserializes to
the structurally identical record. -/
theorem roundtrip_master : ∀ (n : Nat) (env : Env),
    (∀ t v, sizeOf v ≤ n → goodValue env t v = true →
      ∃ w, dumpF env t v = .ok w ∧ loadF env t w = .ok v) ∧
    (∀ s x, sizeOf x ≤ n → goodInstance env s x = true →
      ∃ d, to_json_compatible env s x = .ok d ∧ from_json_compatible env s d = .ok x) := by
  intro n
  induction n using Nat.strong_induction_on with
  | _ n IH =>
    intro env
    have Hrec : ∀ s x, sizeOf x ≤ n → goodInstance env s x = true →
        ∃ d, to_json_compatible env s x = .ok d ∧ from_json_compatible env s d = .ok x := by
      intro s x hsz hgood
      cases x with
      | vrecord nm vs =>
        rw [show goodInstance env s (.vrecord nm vs) = (nm == s.name &&
            decide (vs.map Prod.fst = s.fields.map Prod.fst) &&
            decide ((s.fields.map Prod.fst).Nodup) && goodFields env s.fields vs) from
          by rw [goodInstance]] at hgood
        simp only [Bool.and_eq_true, beq_iff_eq, decide_eq_true_eq] at hgood
        obtain ⟨⟨⟨hname, halign⟩, hnd⟩, hgf⟩ := hgood
        have hvsize : sizeOf vs < sizeOf (PyVal.vrecord nm vs) := by
          simp only [PyVal.vrecord.sizeOf_spec]
          omega
        have HF : List.Forall₂ (fun (kf : String × FieldSpec) (kv : String × PyVal) =>
            (isNone kv.2 = true ∧ kf.2.default = .vnone) ∨
            (isNone kv.2 = false ∧ ∃ w, dumpF env kf.2.ftype kv.2 = .ok w ∧
              loadF env kf.2.ftype w = .ok kv.2)) s.fields vs := by
          refine forall2_imp_mem (goodFields_forall2 hgf) ?_
          intro kf kv _ hkvmem hr
          rcases hr with ⟨hn, hd⟩ | ⟨hn, hgv⟩
          · exact Or.inl ⟨hn, hd⟩
          · refine Or.inr ⟨hn, ?_⟩
            have hsub : sizeOf kv.2 < sizeOf vs := by
              have : (kv.1, kv.2) ∈ vs := by
                simpa using hkvmem
              exact mem_snd_sizeOf_lt this
            have hlt : sizeOf kv.2 < n := by omega
            exact (IH (sizeOf kv.2) hlt env).1 kf.2.ftype kv.2 le_rfl hgv
        obtain ⟨d, hdump, hkeys, hload2⟩ :=
          dumpFields_roundtrip_aux env s.fields vs vs halign hnd (fun k _ => rfl) HF
        have Fnull : List.Forall₂ (fun (kf : String × FieldSpec) (kv : String × PyVal) =>
            isNone kv.2 = true → kf.2.default = .vnone) s.fields vs := by
          refine List.Forall₂.imp ?_ (goodFields_forall2 hgf)
          intro a b hr
          rcases hr with ⟨_, hd⟩ | ⟨hn, _⟩
          · exact fun _ => hd
          · intro hh
            rw [hh] at hn
            cases hn
        refine ⟨d, ?_, ?_⟩
        · rw [to_json_compatible_record]
          exact hdump
        · rw [from_json_compatible_eq, loadFields_of_forall2 env s.fields hload2]
          have hri : record_init s (vs.filter fun kv => !isNone kv.2) =
              .vrecord s.name vs := by
            unfold record_init
            rw [record_init_fields_eq s.fields vs _ halign hnd Fnull (fun k _ => rfl)]
          simp [Except.map, hri, hname]
      | vnone => rw [goodInstance] at hgood <;> simp_all
      | vbool b => rw [goodInstance] at hgood <;> simp_all
      | vint m => rw [goodInstance] at hgood <;> simp_all
      | vfloat q => rw [goodInstance] at hgood <;> simp_all
      | vstr st => rw [goodInstance] at hgood <;> simp_all
      | vbytes bs => rw [goodInstance] at hgood <;> simp_all
      | vdate y m d => rw [goodInstance] at hgood <;> simp_all
      | vdatetime y mo d h mi se us => rw [goodInstance] at hgood <;> simp_all
      | vlist xs => rw [goodInstance] at hgood <;> simp_all
      | vdict entries => rw [goodInstance] at hgood <;> simp_all
      | vnodefault => rw [goodInstance] at hgood <;> simp_all
    have Hval : ∀ t v, sizeOf v ≤ n → goodValue env t v = true →
        ∃ w, dumpF env t v = .ok w ∧ loadF env t w = .ok v := by
      intro t v hsz hgood
      cases t with
      | text =>
        cases v <;> simp [goodValue] at hgood
        next s => exact ⟨.vstr s, by rw [dumpF_text]; rfl, by rw [loadF_text]; rfl⟩
      | bytes ce =>
        cases v <;> simp [goodValue] at hgood
        next bs =>
          have hb : ∀ b ∈ bs, b < 256 := fun b hm => hgood b hm
          cases ce with
          | false =>
            refine ⟨.vstr (latin1Decode bs), by rw [dumpF_bytes]; rfl, ?_⟩
            rw [loadF_bytes]
            simp [bytesLoad, latin1Encode_latin1Decode hb]
          | true =>
            refine ⟨.vstr (String.mk (encodeB64 bs)), by rw [dumpF_bytes]; rfl, ?_⟩
            rw [loadF_bytes]
            obtain ⟨abs, habs⟩ := asciiEncode_isSome (encodeB64_ascii bs hb)
            simp [bytesLoad, habs, toList_mk, decodeB64_encodeB64 bs hb]
      | integer sz =>
        cases v <;> simp [goodValue] at hgood
        next m => exact ⟨.vint m, dumpF_integer env sz m, loadF_integer env sz m⟩
      | boolean =>
        cases v <;> simp [goodValue] at hgood
        next b => exact ⟨.vbool b, dumpF_boolean env b, loadF_boolean env b⟩
      | float sz =>
        cases v <;> simp [goodValue] at hgood
        next q => exact ⟨.vfloat q, dumpF_float env sz q, loadF_float env sz q⟩
      | enum values =>
        cases v <;> simp [goodValue] at hgood
        next s =>
          refine ⟨.vstr s, ?_, ?_⟩
          · rw [dumpF_enum]
            simp [enumHasE, enumHas, textDump, hgood]
          · rw [loadF_enum]
            simp [textLoad, enumHas, isNone, hgood]
      | date =>
        cases v <;> simp [goodValue] at hgood
        next y m d =>
          refine ⟨.vstr (formatDate y m d), dumpF_date env y m d, ?_⟩
          rw [loadF_date]
          simp [dateLoad, parseDate_formatDate hgood]
      | datetime =>
        cases v <;> simp [goodValue] at hgood
        next y mo d h mi se us =>
          have hd : validDate y mo d = true := hgood.1.1
          have ht : validTime h mi se = true := hgood.1.2
          have hus : us ≤ 999999 := hgood.2
          refine ⟨.vstr (formatDateTime y mo d h mi se us),
            dumpF_datetime env y mo d h mi se us, ?_⟩
          rw [loadF_datetime]
          by_cases hus0 : us = 0
          · subst hus0
            simp [datetimeLoad, parseDateTime_formatDateTime_zero hd ht]
          · simp [datetimeLoad,
              parseDateTime_formatDateTime_frac hd ht hus0 (by omega)]
      | list t =>
        cases v <;> simp [goodValue] at hgood
        next xs =>
          have hpt : ∀ x ∈ xs, ∃ w, dumpF env t x = .ok w ∧ loadF env t w = .ok x := by
            intro x hx
            have hg := goodList_mem hgood x hx
            have hlt : sizeOf x < n := by
              have h1 := mem_sizeOf_lt hx
              have h2 : sizeOf xs < sizeOf (PyVal.vlist xs) := by
                simp only [PyVal.vlist.sizeOf_spec]
                omega
              omega
            exact (IH (sizeOf x) hlt env).1 t x le_rfl hg
          obtain ⟨ws, hdws, hlws⟩ := dumpList_roundtrip env t xs hpt
          refine ⟨.vlist ws, ?_, ?_⟩
          · rw [dumpF_list, hdws]
            rfl
          · rw [loadF_list, hlws]
            rfl
      | map t =>
        cases v <;> simp [goodValue] at hgood
        next entries =>
          have hpt : ∀ kv ∈ entries, ∃ w, dumpF env t kv.2 = .ok w ∧
              loadF env t w = .ok kv.2 := by
            intro kv hkv
            have hg := goodDict_mem hgood kv hkv
            have hlt : sizeOf kv.2 < n := by
              have h1 : (kv.1, kv.2) ∈ entries := by simpa using hkv
              have h2 := mem_snd_sizeOf_lt h1
              have h3 : sizeOf entries < sizeOf (PyVal.vdict entries) := by
                simp only [PyVal.vdict.sizeOf_spec]
                omega
              omega
            exact (IH (sizeOf kv.2) hlt env).1 t kv.2 le_rfl hg
          obtain ⟨ws, hdws, hlws⟩ := dumpDict_roundtrip env t entries hpt
          refine ⟨.vdict ws, ?_, ?_⟩
          · rw [dumpF_map, hdws]
            rfl
          · rw [loadF_map, hlws]
            rfl
      | subrecord i =>
        cases henv : env[i]? with
        | none => simp [goodValue, henv] at hgood
        | some s =>
          have hgI : goodInstance env s v = true := by
            simpa [goodValue, henv] using hgood
          obtain ⟨d, hdump, hload⟩ := Hrec s v hsz hgI
          cases v with
          | vrecord nm vs =>
            have hname : nm = s.name := by
              rw [show goodInstance env s (.vrecord nm vs) = (nm == s.name &&
                  decide (vs.map Prod.fst = s.fields.map Prod.fst) &&
                  decide ((s.fields.map Prod.fst).Nodup) && goodFields env s.fields vs) from
                by rw [goodInstance]] at hgI
              simp only [Bool.and_eq_true, beq_iff_eq] at hgI
              exact hgI.1.1.1
            subst hname
            refine ⟨.vdict d, ?_, ?_⟩
            · rw [dumpF_subrecord, henv]
              show (if s.name = s.name then
                  (to_json_compatible env s (.vrecord s.name vs)).map PyVal.vdict
                else .error .valueError) = .ok (.vdict d)
              rw [if_pos rfl, hdump]
              rfl
            · rw [loadF_subrecord, henv]
              exact hload
          | vnone => rw [goodInstance] at hgI <;> simp_all
          | vbool b => rw [goodInstance] at hgI <;> simp_all
          | vint m => rw [goodInstance] at hgI <;> simp_all
          | vfloat q => rw [goodInstance] at hgI <;> simp_all
          | vstr st => rw [goodInstance] at hgI <;> simp_all
          | vbytes bs => rw [goodInstance] at hgI <;> simp_all
          | vdate y m d => rw [goodInstance] at hgI <;> simp_all
          | vdatetime y mo d h mi se us => rw [goodInstance] at hgI <;> simp_all
          | vlist xs => rw [goodInstance] at hgI <;> simp_all
          | vdict entries => rw [goodInstance] at hgI <;> simp_all
          | vnodefault => rw [goodInstance] at hgI <;> simp_all
    exact ⟨Hval, Hrec⟩

/-! ## Claim C1: the serialization round-trip law -/

/-- A record descriptor with one nullable `Integer` field carrying a
non-`None` explicit default: the shape on which the literal round-trip law
fails. -/
def c1Schema : RecordSchema :=
  ⟨"R", none, 0, [("a", Field_init (.integer 8) true (some (.vint 5)))]⟩

/-- C1: counterexample to the round-trip law as stated.  The instance
`R(a=None)` is valid — `None` satisfies `Integer.dump`'s precondition and
dumps successfully — yet serializing it omits the field, and deserializing
the result resurrects the declared default `5`, so the round trip returns
`R(a=5)`, not a record structurally equal to the original. -/
theorem roundtrip_counterexample :
    dumpF [] (.integer 8) .vnone = .ok .vnone ∧
    to_json_compatible [] c1Schema (.vrecord "R" [("a", .vnone)]) = .ok [] ∧
    from_json_compatible [] c1Schema [] = .ok (.vrecord "R" [("a", .vint 5)]) ∧
    PyVal.vrecord "R" [("a", .vint 5)] ≠ .vrecord "R" [("a", .vnone)] := by
  refine ⟨?_, ?_, ?_, ?_⟩
  · rw [dumpF]
  · simp [to_json_compatible, c1Schema, dumpFields, lookupVal, isNone]
  · simp [from_json_compatible, c1Schema, loadFields, Except.map, record_init,
      lookupVal, default_value, Field_init]
  · simp

/-- C1 (amended): the round-trip law
`from_json_compatible(R, to_json_compatible(x)) = x` holds for every valid
instance under the added proviso that each `None`-valued field has a `None`
declared default (part of `goodInstance`); it covers every field type,
including nested and self-referential `SubRecord`, `List` and `Map`. -/
theorem roundtrip_law (env : Env) (s : RecordSchema) (x : PyVal)
    (h : goodInstance env s x = true) :
    ∃ d, to_json_compatible env s x = .ok d ∧
      from_json_compatible env s d = .ok x :=
  (roundtrip_master (sizeOf x) env).2 s x le_rfl h

/-- The self-referential descriptor `Node(v: Integer(), child: SubRecord(SELF))`,
both fields nullable. -/
def nodeSchema : RecordSchema :=
  ⟨"Node", none, 0, [("v", Field_init (.integer 8) true none),
                     ("child", Field_init (.subrecord 0) true none)]⟩

def nodeEnv : Env := [nodeSchema]

/-- A two-level self-referential instance of `nodeSchema`. -/
def nodeX : PyVal :=
  .vrecord "Node" [("v", .vint 1),
                   ("child", .vrecord "Node" [("v", .vint 2), ("child", .vnone)])]

/-- C1 witness: the amended round-trip law at a concrete self-referential
instance. -/
theorem roundtrip_law_witness :
    ∃ d, to_json_compatible nodeEnv nodeSchema nodeX = .ok d ∧
      from_json_compatible nodeEnv nodeSchema d = .ok nodeX :=
  roundtrip_law nodeEnv nodeSchema nodeX (by
    simp [goodInstance, nodeEnv, nodeSchema, nodeX, goodFields, goodValue,
      Field_init, isNone])

/-! ## Claim C2: null omission on dump, default supply on load -/

/-- The keys of a successful sparse dump are exactly the declared field
names whose attribute value is present and not `None`. -/
theorem dumpFields_keys (env : Env) :
    ∀ (fs : List (String × FieldSpec)) (inst d : List (String × PyVal)),
      dumpFields env fs inst = .ok d →
      d.map Prod.fst = (fs.map Prod.fst).filter
        (fun key => match lookupVal inst key with
                    | some v => !isNone v
                    | none => false) := by
  intro fs
  induction fs with
  | nil =>
    intro inst d h
    rw [dumpFields_nil] at h
    cases h
    rfl
  | cons kf rest ih =>
    obtain ⟨k, f⟩ := kf
    intro inst d h
    rw [dumpFields_cons] at h
    split at h
    next hl => cases h
    next val hl =>
      by_cases hn : isNone val = true
      · rw [if_pos hn] at h
        have htail := ih inst d h
        simp only [List.map_cons, List.filter_cons]
        rw [hl]
        simp [hn, htail]
      · rw [if_neg hn] at h
        cases hdf : dumpF env f.ftype val with
        | error e =>
          rw [hdf] at h
          cases h
        | ok w =>
          rw [hdf] at h
          cases hrest : dumpFields env rest inst with
          | error e =>
            rw [hrest] at h
            cases h
          | ok d' =>
            rw [hrest] at h
            cases h
            have htail := ih inst d' hrest
            simp only [List.map_cons, List.filter_cons]
            rw [hl]
            simp [hn, htail]

/-- `loadFields` preserves the input keys: the keyword arguments it
collects are keyed exactly by the wire dictionary's keys, in order. -/
theorem loadFields_keys (env : Env) (sfields : List (String × FieldSpec)) :
    ∀ (dct kwargs : List (String × PyVal)),
      loadFields env sfields dct = .ok kwargs →
      kwargs.map Prod.fst = dct.map Prod.fst := by
  intro dct
  induction dct with
  | nil =>
    intro kwargs h
    rw [loadFields_nil] at h
    cases h
    rfl
  | cons p rest ih =>
    obtain ⟨k, w⟩ := p
    intro kwargs h
    rw [loadFields_cons] at h
    split at h
    next hf => cases h
    next f hf =>
      cases hlw : loadF env f.ftype w with
      | error e =>
        rw [hlw] at h
        cases h
      | ok v =>
        rw [hlw] at h
        cases hrest : loadFields env sfields rest with
        | error e =>
          rw [hrest] at h
          cases h
        | ok ks =>
          rw [hrest] at h
          cases h
          simp [ih ks hrest]

/-- Attribute lookup on a freshly constructed record: the keyword argument
for the first declared field of that name when given, its declared
default otherwise. -/
theorem lookupVal_init_fields (kwargs : List (String × PyVal)) (k : String) :
    ∀ (fs : List (String × FieldSpec)),
      lookupVal (fs.map fun kf =>
        (kf.1, match lookupVal kwargs kf.1 with
               | some v => v
               | none => default_value kf.2)) k =
        (lookupField fs k).map (fun f =>
          match lookupVal kwargs k with
          | some v => v
          | none => default_value f) := by
  intro fs
  induction fs with
  | nil => rfl
  | cons kf rest ih =>
    obtain ⟨k0, f0⟩ := kf
    by_cases hk : k0 = k
    · subst hk
      simp [lookupVal, lookupField]
    · simp only [List.map_cons]
      rw [lookupVal_cons_ne _ _ hk, lookupField_cons_ne _ _ hk]
      exact ih

/-- `k in dct` agrees with membership in the key list. -/
theorem hasKey_iff_mem_keys (l : List (String × PyVal)) (k : String) :
    hasKey l k = true ↔ k ∈ l.map Prod.fst := by
  induction l with
  | nil => simp [hasKey]
  | cons p rest ih =>
    obtain ⟨k0, v⟩ := p
    by_cases h : k0 = k
    · subst h
      simp [hasKey]
    · have hne : ¬ (k = k0) := fun he => h he.symm
      simp [hasKey, h, hne, ih]

/-- C2: null-omission sparse encoding.  (i) A successful serialization
emits exactly the keys of the declared fields whose native value is
non-`None` — `None`-valued fields are omitted entirely.  (ii) Any declared
field whose key is absent from the input dictionary receives its declared
default value on deserialization.  (iii) A nullable field declared with no
explicit default defaults to `None`. -/
theorem null_omission_sparse_encoding (env : Env) (s : RecordSchema)
    (nm : String) (inst d dct : List (String × PyVal)) (r : PyVal)
    (k : String) (f : FieldSpec) (t : FType)
    (hdump : to_json_compatible env s (.vrecord nm inst) = .ok d)
    (hload : from_json_compatible env s dct = .ok r)
    (hf : lookupField s.fields k = some f)
    (habsent : hasKey dct k = false) :
    d.map Prod.fst = (s.fields.map Prod.fst).filter
      (fun key => match lookupVal inst key with
                  | some v => !isNone v
                  | none => false) ∧
    (∃ rf, r = .vrecord s.name rf ∧ lookupVal rf k = some (default_value f)) ∧
    (Field_init t true none).default = .vnone := by
  refine ⟨?_, ?_, rfl⟩
  · rw [to_json_compatible_record] at hdump
    exact dumpFields_keys env s.fields inst d hdump
  · rw [from_json_compatible_eq] at hload
    cases hlf : loadFields env s.fields dct with
    | error e =>
      rw [hlf] at hload
      cases hload
    | ok kwargs =>
      rw [hlf] at hload
      cases hload
      simp only [record_init]
      refine ⟨_, rfl, ?_⟩
      rw [lookupVal_init_fields kwargs k s.fields, hf]
      have hnk : lookupVal kwargs k = none := by
        refine lookupVal_eq_none_of_not_mem_keys ?_
        rw [loadFields_keys env s.fields dct kwargs hlf]
        intro hmem
        rw [← hasKey_iff_mem_keys] at hmem
        rw [habsent] at hmem
        cases hmem
      simp [hnk]

/-- A two-field descriptor used to witness the sparse-encoding claim:
a nullable `Text` with no default and a nullable `Integer` defaulting
to `7`. -/
def c2Schema : RecordSchema :=
  ⟨"S", none, 0, [("a", Field_init .text true none),
                  ("b", Field_init (.integer 8) true (some (.vint 7)))]⟩

/-- C2 witness: on `S(a="x", b=None)` the dump keeps exactly key `"a"`,
and loading a dictionary without key `"b"` supplies `b`'s declared
default `7`. -/
theorem null_omission_sparse_encoding_witness :
    ([("a", PyVal.vstr "x")] : List (String × PyVal)).map Prod.fst =
      (c2Schema.fields.map Prod.fst).filter
        (fun key => match lookupVal [("a", .vstr "x"), ("b", .vnone)] key with
                    | some v => !isNone v
                    | none => false) ∧
    (∃ rf, PyVal.vrecord "S" [("a", .vstr "y"), ("b", .vint 7)] =
        .vrecord c2Schema.name rf ∧
      lookupVal rf "b" =
        some (default_value (Field_init (.integer 8) true (some (.vint 7))))) ∧
    (Field_init FType.text true none).default = .vnone := by
  have h := null_omission_sparse_encoding [] c2Schema "S"
      [("a", .vstr "x"), ("b", .vnone)] [("a", .vstr "x")] [("a", .vstr "y")]
      (.vrecord "S" [("a", .vstr "y"), ("b", .vint 7)]) "b"
      (Field_init (.integer 8) true (some (.vint 7))) .text
      (by rw [to_json_compatible_record]
          simp [c2Schema, dumpFields, lookupVal, isNone, Field_init, dumpF_text,
            textDump, Except.bind, Except.map])
      (by rw [from_json_compatible_eq]
          simp [c2Schema, loadFields, lookupField, loadF_text, textLoad,
            Field_init, Except.bind, Except.map, record_init, lookupVal,
            default_value])
      (by rfl) (by rfl)
  exact ⟨h.1, h.2.1, h.2.2⟩

/-! ## Claim C3: rejection of unknown fields -/

/-- `loadFields` on a dictionary containing an undeclared key always
fails; the failure is `ParseError` whenever every declared-key entry
itself loads successfully. -/
theorem loadFields_unknown_key (env : Env) (sfields : List (String × FieldSpec)) :
    ∀ (dct : List (String × PyVal)),
      (∃ k, k ∈ dct.map Prod.fst ∧ lookupField sfields k = none) →
      (∃ e, loadFields env sfields dct = .error e) ∧
      ((∀ kv ∈ dct, ∀ f, lookupField sfields kv.1 = some f →
          ∃ v, loadF env f.ftype kv.2 = .ok v) →
        loadFields env sfields dct = .error .parseError) := by
  intro dct
  induction dct with
  | nil =>
    rintro ⟨k, hk, _⟩
    simp at hk
  | cons p rest ih =>
    obtain ⟨k0, w0⟩ := p
    rintro ⟨k, hk, hnone⟩
    rw [loadFields_cons]
    split
    next hf0 =>
      exact ⟨⟨.parseError, rfl⟩, fun _ => rfl⟩
    next f0 hf0 =>
      have hkrest : k ∈ rest.map Prod.fst := by
        simp only [List.map_cons, List.mem_cons] at hk
        rcases hk with h | h
        · subst h
          rw [hf0] at hnone
          cases hnone
        · exact h
      obtain ⟨⟨e, he⟩, hpe⟩ := ih ⟨k, hkrest, hnone⟩
      constructor
      · cases hlw : loadF env f0.ftype w0 with
        | error e' => exact ⟨e', rfl⟩
        | ok v => exact ⟨e, by rw [he]; rfl⟩
      · intro hall
        obtain ⟨v, hv⟩ := hall (k0, w0) (List.mem_cons_self _ _) f0 hf0
        rw [hv, hpe fun kv hkv f hf => hall kv (List.mem_cons_of_mem _ hkv) f hf]
        rfl

/-- A descriptor with a single nullable `Date` field. -/
def c3Schema : RecordSchema :=
  ⟨"V", none, 0, [("d", Field_init .date true none)]⟩

/-- C3: counterexample to "always raises ParseError".  On a mapping with
the undeclared key `"zz"`, `from_json_compatible` raises `AttributeError`
— `Date.load` on the integer value of the declared field `"d"` fails
first — not `ParseError`.  (No record is returned, but the promised
error class is wrong.) -/
theorem unknown_field_counterexample :
    lookupField c3Schema.fields "zz" = none ∧
    from_json_compatible [] c3Schema [("d", .vint 0), ("zz", .vint 1)] =
      .error .attributeError ∧
    PyErr.attributeError ≠ PyErr.parseError := by
  refine ⟨rfl, ?_, by decide⟩
  rw [from_json_compatible_eq]
  simp [c3Schema, loadFields, lookupField, loadF_date, dateLoad, Field_init,
    Except.bind, Except.map]

/-- C3 (amended): closed-world deserialization.  A mapping containing an
undeclared key is always rejected with an exception — no partially
constructed record is returned — and the exception is `ParseError`
whenever every entry under a declared key loads successfully; a
declared-key entry that fails to load may preempt with that field's own
error class. -/
theorem unknown_field_rejected (env : Env) (s : RecordSchema)
    (dct : List (String × PyVal)) (k : String)
    (hk : k ∈ dct.map Prod.fst) (hunk : lookupField s.fields k = none) :
    (∃ e, from_json_compatible env s dct = .error e) ∧
    ((∀ kv ∈ dct, ∀ f, lookupField s.fields kv.1 = some f →
        ∃ v, loadF env f.ftype kv.2 = .ok v) →
      from_json_compatible env s dct = .error .parseError) := by
  obtain ⟨⟨e, he⟩, hpe⟩ := loadFields_unknown_key env s.fields dct ⟨k, hk, hunk⟩
  rw [from_json_compatible_eq]
  exact ⟨⟨e, by rw [he]; rfl⟩, fun hall => by rw [hpe hall]; rfl⟩

/-- C3 witness: a dictionary whose only key is undeclared is rejected
with `ParseError`. -/
theorem unknown_field_rejected_witness :
    from_json_compatible [] c3Schema [("zz", .vint 1)] = .error .parseError := by
  refine (unknown_field_rejected [] c3Schema [("zz", .vint 1)] "zz"
    (by simp) (by rfl)).2 ?_
  rintro kv hkv f hf
  simp only [List.mem_singleton] at hkv
  subst hkv
  simp [c3Schema, lookupField] at hf

/-! ## Claim C4: the `NO_DEFAULT` sentinel never serializes -/

/-- Every field type's `dump` rejects the `NO_DEFAULT` sentinel. -/
theorem dumpF_nodefault (env : Env) (t : FType) :
    ∃ e, dumpF env t .vnodefault = .error e := by
  cases t with
  | text => exact ⟨.valueError, by rw [dumpF_text]; rfl⟩
  | bytes ce =>
    refine ⟨if ce then .typeError else .attributeError, ?_⟩
    rw [dumpF_bytes]
    cases ce <;> rfl
  | integer sz => exact ⟨.valueError, by rw [dumpF] <;> simp⟩
  | boolean => exact ⟨.valueError, by rw [dumpF]; rfl⟩
  | float sz => exact ⟨.valueError, by rw [dumpF] <;> simp⟩
  | enum values =>
    exact ⟨.valueError, by rw [dumpF_enum]; rfl⟩
  | date => exact ⟨.valueError, by rw [dumpF] <;> simp⟩
  | datetime => exact ⟨.valueError, by rw [dumpF] <;> simp⟩
  | list t => exact ⟨.valueError, by rw [dumpF] <;> simp⟩
  | map t => exact ⟨.valueError, by rw [dumpF] <;> simp⟩
  | subrecord i =>
    rw [dumpF_subrecord]
    cases env[i]? with
    | none => exact ⟨.attributeError, rfl⟩
    | some s => exact ⟨.valueError, rfl⟩

/-- A successful `_fields.get` exhibits a member of the field list. -/
theorem lookupField_mem {fs : List (String × FieldSpec)} {k : String}
    {f : FieldSpec} (h : lookupField fs k = some f) : (k, f) ∈ fs := by
  induction fs with
  | nil => cases h
  | cons p rest ih =>
    obtain ⟨k0, f0⟩ := p
    by_cases hk : k0 = k
    · subst hk
      rw [lookupField_cons_self] at h
      injection h with h
      subst h
      exact List.mem_cons_self _ _
    · rw [lookupField_cons_ne _ _ hk] at h
      exact List.mem_cons_of_mem _ (ih h)

/-- The dump loop fails on any record whose attribute list holds the
`NO_DEFAULT` sentinel in a declared field. -/
theorem dumpFields_nodefault_error (env : Env) :
    ∀ (fs : List (String × FieldSpec)) (inst : List (String × PyVal)) (k : String),
      (∃ f, (k, f) ∈ fs) → lookupVal inst k = some .vnodefault →
      ∃ e, dumpFields env fs inst = .error e := by
  intro fs
  induction fs with
  | nil =>
    rintro inst k ⟨f, hf⟩ _
    simp at hf
  | cons kf rest ih =>
    obtain ⟨k0, f0⟩ := kf
    rintro inst k ⟨f, hf⟩ hlk
    rw [dumpFields_cons]
    cases hl0 : lookupVal inst k0 with
    | none => exact ⟨.attributeError, rfl⟩
    | some val =>
      simp only []
      by_cases hn : isNone val = true
      · rw [if_pos hn]
        rcases List.mem_cons.mp hf with he | hmem
        · injection he with hk0 hf0eq
          subst hk0
          rw [hlk] at hl0
          injection hl0 with hval
          subst hval
          cases hn
        · exact ih inst k ⟨f, hmem⟩ hlk
      · rw [if_neg hn]
        rcases List.mem_cons.mp hf with he | hmem
        · injection he with hk0 hf0eq
          subst hk0
          rw [hlk] at hl0
          injection hl0 with hval
          subst hval
          obtain ⟨e, hde⟩ := dumpF_nodefault env f0.ftype
          exact ⟨e, by rw [hde]; rfl⟩
        · cases hdf : dumpF env f0.ftype val with
          | error e' => exact ⟨e', rfl⟩
          | ok w =>
            obtain ⟨e, he⟩ := ih inst k ⟨f, hmem⟩ hlk
            exact ⟨e, by rw [he]; rfl⟩

/-- C4: `NO_DEFAULT` never serializes.  A field declared `nullable=False`
with no explicit default defaults to the `NO_DEFAULT` sentinel; a freshly
constructed instance that leaves that field unset holds the sentinel in
that attribute; and serializing such an instance raises an error instead
of producing wire output. -/
theorem no_default_never_serializes (env : Env) (s : RecordSchema)
    (kwargs : List (String × PyVal)) (k : String) (t : FType)
    (hf : lookupField s.fields k = some (Field_init t false none))
    (hunset : lookupVal kwargs k = none) :
    (Field_init t false none).default = .vnodefault ∧
    (∃ rf, record_init s kwargs = .vrecord s.name rf ∧
      lookupVal rf k = some .vnodefault) ∧
    (∃ e, to_json_compatible env s (record_init s kwargs) = .error e) := by
  have hsentinel : lookupVal (s.fields.map fun kf =>
      (kf.1, match lookupVal kwargs kf.1 with
             | some v => v
             | none => default_value kf.2)) k = some .vnodefault := by
    rw [lookupVal_init_fields kwargs k s.fields, hf]
    simp [hunset, default_value, Field_init]
  refine ⟨rfl, ⟨_, rfl, hsentinel⟩, ?_⟩
  rw [show record_init s kwargs = .vrecord s.name (s.fields.map fun kf =>
      (kf.1, match lookupVal kwargs kf.1 with
             | some v => v
             | none => default_value kf.2)) from rfl]
  rw [to_json_compatible_record]
  exact dumpFields_nodefault_error env s.fields _ k
    ⟨Field_init t false none, lookupField_mem hf⟩ hsentinel

/-- A descriptor with one non-nullable `Integer` field with no default. -/
def c4Schema : RecordSchema :=
  ⟨"P", none, 0, [("x", Field_init (.integer 8) false none)]⟩

/-- C4 witness: constructing `P()` with no arguments and serializing it
fails. -/
theorem no_default_never_serializes_witness :
    (Field_init (.integer 8) false none).default = .vnodefault ∧
    (∃ rf, record_init c4Schema [] = .vrecord c4Schema.name rf ∧
      lookupVal rf "x" = some .vnodefault) ∧
    (∃ e, to_json_compatible [] c4Schema (record_init c4Schema []) = .error e) :=
  no_default_never_serializes [] c4Schema [] "x" (.integer 8) (by rfl) (by rfl)

/-! ## Claim C5: registry conflict handling -/

/-- The class `Foo` declared in namespace `ns1` (object identity 1). -/
def ns1Foo (fl : List (String × FieldSpec)) : RecordSchema :=
  ⟨"Foo", some "ns1", 1, fl⟩

/-- A distinct class `Foo` declared in namespace `ns2` (object identity 2). -/
def ns2Foo (fl : List (String × FieldSpec)) : RecordSchema :=
  ⟨"Foo", some "ns2", 2, fl⟩

/-- The class `Foo` declared in namespace `ns` (object identity 1). -/
def nsFoo1 (fl : List (String × FieldSpec)) : RecordSchema :=
  ⟨"Foo", some "ns", 1, fl⟩

/-- A distinct class also named `ns.Foo` (object identity 2). -/
def nsFoo2 (fl : List (String × FieldSpec)) : RecordSchema :=
  ⟨"Foo", some "ns", 2, fl⟩

/-- C5: counterexample to the claimed poison-on-bare-name-conflict policy.
After registering the two distinct descriptors `ns1.Foo` and `ns2.Foo` —
a bare-name collision — a lookup by the ambiguous bare name `"Foo"`
silently returns the first candidate as a perfectly usable class; neither
registration nor lookup nor first use raises any `ValueError`-class
conflict error. -/
theorem bare_name_conflict_counterexample :
    store_get (add_record (add_record [] (ns1Foo [])) (ns2Foo [])) "Foo" =
      .ok (.cls (ns1Foo [])) ∧
    useEntry (.cls (ns1Foo [])) = .ok (ns1Foo []) :=
  ⟨rfl, rfl⟩

/-- C5 (amended): the registry's actual conflict policy.  (i) A bare-name
collision between two descriptors from different namespaces is not
detected: the bare slot keeps the first registrant, which bare-name
lookups silently return, while (ii)–(iii) full-name lookups return the
respective descriptors.  (iv) Only a collision on the same full
namespaced name poisons that slot: the lookup still succeeds, and the
`ValueError` is raised lazily at the placeholder's first attribute
access; (v) even then the bare name silently resolves to the first
registrant. -/
theorem registry_conflict_policy (fl1 fl2 : List (String × FieldSpec)) :
    (store_get (add_record (add_record [] (ns1Foo fl1)) (ns2Foo fl2)) "Foo" =
      .ok (.cls (ns1Foo fl1))) ∧
    (store_get (add_record (add_record [] (ns1Foo fl1)) (ns2Foo fl2)) "ns1.Foo" =
      .ok (.cls (ns1Foo fl1))) ∧
    (store_get (add_record (add_record [] (ns1Foo fl1)) (ns2Foo fl2)) "ns2.Foo" =
      .ok (.cls (ns2Foo fl2))) ∧
    (∃ msg, store_get (add_record (add_record [] (nsFoo1 fl1)) (nsFoo2 fl2)) "ns.Foo" =
        .ok (.invalid msg) ∧
      useEntry (.invalid msg) = .error .valueError) ∧
    (store_get (add_record (add_record [] (nsFoo1 fl1)) (nsFoo2 fl2)) "Foo" =
      .ok (.cls (nsFoo1 fl1))) :=
  ⟨rfl, rfl, rfl, ⟨_, rfl, rfl⟩, rfl⟩

/-! ## Claim C6: the Enum closed-vocabulary law -/

/-- C6: counterexample to the nullable-gated null passthrough.  The field
is declared `nullable=False`, yet `Enum.load(None)` succeeds: the explicit
`parsed is not None` test in `Enum.load` ignores the `nullable` flag. -/
theorem enum_null_passthrough_counterexample :
    (Field_init (.enum ["FOO"]) false none).nullable = false ∧
    loadF [] (.enum ["FOO"]) .vnone = .ok .vnone := by
  refine ⟨rfl, ?_⟩
  rw [loadF_enum]
  rfl

/-- C6 (amended): Enum closed-vocabulary law.  `dump` raises `ValueError`
for every hashable value outside the vocabulary, `TypeError` for
unhashable values (lists, dicts) — the set-membership test hashes first —
and returns member strings unchanged; `load` raises `ParseError` for
every parsed string outside the vocabulary, except that `None` always
passes through — whether or not the field is nullable. -/
theorem enum_closed_vocabulary (env : Env) (values : List String) :
    (∀ v, enumHasE values v = .ok false →
      dumpF env (.enum values) v = .error .valueError) ∧
    (∀ xs, dumpF env (.enum values) (.vlist xs) = .error .typeError) ∧
    (∀ es, dumpF env (.enum values) (.vdict es) = .error .typeError) ∧
    (∀ s, s ∈ values → dumpF env (.enum values) (.vstr s) = .ok (.vstr s)) ∧
    (∀ s, s ∉ values → loadF env (.enum values) (.vstr s) = .error .parseError) ∧
    loadF env (.enum values) .vnone = .ok .vnone := by
  refine ⟨?_, ?_, ?_, ?_, ?_, ?_⟩
  · intro v hv
    rw [dumpF_enum, hv]
  · intro xs
    rw [dumpF_enum]
    rfl
  · intro es
    rw [dumpF_enum]
    rfl
  · intro s hs
    rw [dumpF_enum]
    simp [enumHasE, enumHas, hs, textDump]
  · intro s hs
    rw [loadF_enum]
    simp [textLoad, enumHas, hs, isNone]
  · rw [loadF_enum]
    rfl

/-- C6 witness: with vocabulary `{"FOO", "BAR"}`: `dump "BAZ"` raises
`ValueError`, `dump []` raises `TypeError`, `dump "FOO"` returns `"FOO"`
unchanged, `load "BAZ"` raises `ParseError`, and `load None` succeeds. -/
theorem enum_closed_vocabulary_witness :
    dumpF [] (.enum ["FOO", "BAR"]) (.vstr "BAZ") = .error .valueError ∧
    dumpF [] (.enum ["FOO", "BAR"]) (.vlist []) = .error .typeError ∧
    dumpF [] (.enum ["FOO", "BAR"]) (.vstr "FOO") = .ok (.vstr "FOO") ∧
    loadF [] (.enum ["FOO", "BAR"]) (.vstr "BAZ") = .error .parseError ∧
    loadF [] (.enum ["FOO", "BAR"]) .vnone = .ok .vnone :=
  ⟨(enum_closed_vocabulary [] ["FOO", "BAR"]).1 _ (by rfl),
   (enum_closed_vocabulary [] ["FOO", "BAR"]).2.1 [],
   (enum_closed_vocabulary [] ["FOO", "BAR"]).2.2.2.1 _ (by simp),
   (enum_closed_vocabulary [] ["FOO", "BAR"]).2.2.2.2.1 _ (by simp),
   (enum_closed_vocabulary [] ["FOO", "BAR"]).2.2.2.2.2⟩

/-! ## Claim C7: load failure classes of Date and DateTime -/

/-- `Date.load` cannot raise `ParseError`: its failures are `ValueError`
(malformed string) or `AttributeError` (non-string input). -/
theorem dateLoad_ne_parseError (v : PyVal) : dateLoad v ≠ .error .parseError := by
  cases v <;> simp [dateLoad]
  all_goals (split <;> simp)

/-- `DateTime.load` cannot raise `ParseError`: its failures are
`ValueError` (malformed string) or `TypeError` (non-iterable input). -/
theorem datetimeLoad_ne_parseError (v : PyVal) :
    datetimeLoad v ≠ .error .parseError := by
  cases v <;> simp [datetimeLoad]
  all_goals (split <;> simp)

/-- C7: counterexample to the uniform-`ParseError` claim.  A malformed
date or datetime string makes `Date.load` / `DateTime.load` raise
`ValueError`, not `ParseError`. -/
theorem date_load_error_class_counterexample :
    loadF [] .date (.vstr "not-a-date") = .error .valueError ∧
    loadF [] .datetime (.vstr "not a datetime") = .error .valueError ∧
    PyErr.valueError ≠ PyErr.parseError := by
  refine ⟨?_, ?_, by decide⟩
  · rw [loadF_date]
    rfl
  · rw [loadF_datetime]
    rfl

/-- C7 (amended): load failure classes of the date/time types.  `Date.load`
and `DateTime.load` never raise `ParseError`; a malformed date/time string
raises `ValueError`; and `DateTime.load` accepts both string forms —
without fractional seconds and with a nonzero six-digit fraction. -/
theorem load_failure_classes (env : Env) :
    (∀ v, loadF env .date v ≠ .error .parseError) ∧
    (∀ v, loadF env .datetime v ≠ .error .parseError) ∧
    (∀ s : String, parseDate s = none →
      loadF env .date (.vstr s) = .error .valueError) ∧
    (∀ s : String, parseDateTime s = none →
      loadF env .datetime (.vstr s) = .error .valueError) ∧
    (∀ y mo d h mi sec, validDate y mo d = true → validTime h mi sec = true →
      loadF env .datetime (.vstr (formatDateTime y mo d h mi sec 0)) =
        .ok (.vdatetime y mo d h mi sec 0)) ∧
    (∀ y mo d h mi sec us, validDate y mo d = true → validTime h mi sec = true →
      us ≠ 0 → us ≤ 999999 →
      loadF env .datetime (.vstr (formatDateTime y mo d h mi sec us)) =
        .ok (.vdatetime y mo d h mi sec us)) := by
  refine ⟨?_, ?_, ?_, ?_, ?_, ?_⟩
  · intro v
    rw [loadF_date]
    exact dateLoad_ne_parseError v
  · intro v
    rw [loadF_datetime]
    exact datetimeLoad_ne_parseError v
  · intro s hs
    rw [loadF_date]
    simp [dateLoad, hs]
  · intro s hs
    rw [loadF_datetime]
    simp [datetimeLoad, hs]
  · intro y mo d h mi sec hd ht
    rw [loadF_datetime]
    simp [datetimeLoad, parseDateTime_formatDateTime_zero hd ht]
  · intro y mo d h mi sec us hd ht hus0 hus
    rw [loadF_datetime]
    simp [datetimeLoad, parseDateTime_formatDateTime_frac hd ht hus0 hus]

/-- C7 witness: concrete malformed strings raise `ValueError`, and both
concrete datetime string forms load back. -/
theorem load_failure_classes_witness :
    loadF [] .date (.vstr "nonsense") = .error .valueError ∧
    loadF [] .datetime (.vstr "2014-02-30 12:00:00") = .error .valueError ∧
    loadF [] .datetime (.vstr (formatDateTime 2014 4 20 12 0 0 0)) =
      .ok (.vdatetime 2014 4 20 12 0 0 0) ∧
    loadF [] .datetime (.vstr (formatDateTime 2012 1 1 23 3 3 12345)) =
      .ok (.vdatetime 2012 1 1 23 3 3 12345) :=
  ⟨(load_failure_classes []).2.2.1 "nonsense" (by rfl),
   (load_failure_classes []).2.2.2.1 "2014-02-30 12:00:00" (by rfl),
   (load_failure_classes []).2.2.2.2.1 2014 4 20 12 0 0 (by decide) (by decide),
   (load_failure_classes []).2.2.2.2.2 2012 1 1 23 3 3 12345
     (by decide) (by decide) (by decide) (by decide)⟩

/-! ## Claim C8: the self-reference guard of the graph traverser -/

/-- The self-referential descriptor `Node(child: SubRecord(SELF))`. -/
def selfSchema : RecordSchema :=
  ⟨"Node", none, 0, [("child", Field_init (.subrecord 0) true none)]⟩

/-- C8: counterexample to the self-exclusion claim.  Expanding the
self-referential `Node` at the default depth, the node is on the active
recursion path when its own `SubRecord` back-edge is visited — yet the
returned descendant set is exactly `{Node}`: the traversal *includes*
the node in its own descendant set; the started-guard only suppresses
the recursive expansion. -/
theorem self_descendant_counterexample :
    (find_descendants [selfSchema] ⟨[], []⟩ (.record 0) 100).2 = [0] ∧
    0 ∈ (find_descendants [selfSchema] ⟨[], []⟩ (.record 0) 100).2 := by
  have h : (find_descendants [selfSchema] ⟨[], []⟩ (.record 0) 100).2 = [0] := by
    simp [find_descendants, fd_fold, selfSchema, gLookup, gInsert, sAdd,
      unionNat, Field_init]
  exact ⟨h, by rw [h]; simp⟩

/-- C8 (amended): the started-guard guards the recursion, not the set.
At every positive depth the traversal of the self-referential record
terminates with the same answer — the back-edge target is added to the
descendant set and, being on the active path, is *not* expanded further —
so a self-referential record appears in its own descendant set. -/
theorem self_reference_guard (d : Nat) (fname : String) :
    (find_descendants
      [⟨"Node", none, 0, [(fname, Field_init (.subrecord 0) true none)]⟩]
      ⟨[], []⟩ (.record 0) (d + 1)).2 = [0] := by
  simp [find_descendants, fd_fold, gLookup, gInsert, sAdd, unionNat, Field_init]

/-! ## Claim C9: the Boolean value map -/

/-- The numeric value a Python object contributes to numeric `==`:
booleans count as `1`/`0`, ints and floats as themselves. -/
def toRatNum : PyVal → Option Rat
  | .vbool b => some (cond b 1 0)
  | .vint n => some (n : Rat)
  | .vfloat q => some q
  | _ => none

/-- Python `==` restricted to the numeric tower (`bool`/`int`/`float`);
`false` when either side is non-numeric. -/
def pyEqNum (a b : PyVal) : Bool :=
  match toRatNum a, toRatNum b with
  | some x, some y => x == y
  | _, _ => false

/-- The spec's value set `{True, 1, False, 0}` under Python `==`. -/
def inBoolKeys (v : PyVal) : Bool :=
  pyEqNum v (.vbool true) || pyEqNum v (.vint 1) ||
    pyEqNum v (.vbool false) || pyEqNum v (.vint 0)

/-- `VALUE_MAP` membership agrees with the spec's value set on hashable
values; lists and dicts are unhashable and raise `TypeError` (and are
outside the set). -/
theorem valueMapHas_inBoolKeys (v : PyVal) :
    (inBoolKeys v = true → valueMapHas v = .ok true) ∧
    (inBoolKeys v = false →
      valueMapHas v = .ok false ∨ ∃ e, valueMapHas v = .error e) := by
  cases v with
  | vbool b => cases b <;> exact ⟨fun _ => rfl, fun h => nomatch h⟩
  | vint n =>
    have c0 : ((n : Rat) == 0) = (n == 0) := by
      by_cases h : n = 0 <;> simp [h]
    have c1 : ((n : Rat) == 1) = (n == 1) := by
      by_cases h : n = 1 <;> simp [h]
    have hin : inBoolKeys (.vint n) = (n == 0 || n == 1) := by
      simp only [inBoolKeys, pyEqNum, toRatNum, Int.cast_one, Int.cast_zero,
        Bool.cond_true, Bool.cond_false]
      rw [c0, c1]
      cases h0 : n == 0 <;> cases h1 : n == 1 <;> rfl
    refine ⟨fun h => ?_, fun h => .inl ?_⟩
    · rw [hin] at h
      rw [show valueMapHas (.vint n) = .ok (n == 0 || n == 1) from rfl, h]
    · rw [hin] at h
      rw [show valueMapHas (.vint n) = .ok (n == 0 || n == 1) from rfl, h]
  | vfloat q =>
    have hin : inBoolKeys (.vfloat q) = (q == 0 || q == 1) := by
      simp only [inBoolKeys, pyEqNum, toRatNum, Int.cast_one, Int.cast_zero,
        Bool.cond_true, Bool.cond_false]
      cases h0 : q == 0 <;> cases h1 : q == 1 <;> rfl
    refine ⟨fun h => ?_, fun h => .inl ?_⟩
    · rw [hin] at h
      rw [show valueMapHas (.vfloat q) = .ok (q == 0 || q == 1) from rfl, h]
    · rw [hin] at h
      rw [show valueMapHas (.vfloat q) = .ok (q == 0 || q == 1) from rfl, h]
  | vlist xs => exact ⟨fun h => (nomatch h), fun _ => .inr ⟨.typeError, rfl⟩⟩
  | vdict es => exact ⟨fun h => (nomatch h), fun _ => .inr ⟨.typeError, rfl⟩⟩
  | vnone => exact ⟨fun h => (nomatch h), fun _ => .inl rfl⟩
  | vstr s => exact ⟨fun h => (nomatch h), fun _ => .inl rfl⟩
  | vbytes bs => exact ⟨fun h => (nomatch h), fun _ => .inl rfl⟩
  | vdate y m d => exact ⟨fun h => (nomatch h), fun _ => .inl rfl⟩
  | vdatetime y mo d h mi s us => exact ⟨fun h => (nomatch h), fun _ => .inl rfl⟩
  | vrecord nm fs => exact ⟨fun h => (nomatch h), fun _ => .inl rfl⟩
  | vnodefault => exact ⟨fun h => (nomatch h), fun _ => .inl rfl⟩

/-- Unfolding of `Boolean.dump` at an arbitrary value. -/
theorem dumpF_boolean_eq (env : Env) (v : PyVal) :
    dumpF env .boolean v =
      (match valueMapHas v with
       | .error e => .error e
       | .ok true => .ok (.vbool (pyBool v))
       | .ok false => .error .valueError) := by
  rw [dumpF]

/-- Unfolding of `Boolean.load` at an arbitrary value. -/
theorem loadF_boolean_eq (env : Env) (v : PyVal) :
    loadF env .boolean v =
      (match valueMapHas v with
       | .error e => .error e
       | .ok true => .ok (.vbool (pyBool v))
       | .ok false => .error .parseError) := by
  rw [loadF]

/-- C9: Boolean value-map validation.  `Boolean.dump(v)` and
`Boolean.load(v)` both succeed — returning the coercion `bool(v)` —
exactly when `v` is numerically equal to one of `{True, 1, False, 0}`,
and raise an error for every other input. -/
theorem boolean_value_map (env : Env) (v : PyVal) :
    (inBoolKeys v = true →
      dumpF env .boolean v = .ok (.vbool (pyBool v)) ∧
      loadF env .boolean v = .ok (.vbool (pyBool v))) ∧
    (inBoolKeys v = false →
      (∃ e, dumpF env .boolean v = .error e) ∧
      (∃ e, loadF env .boolean v = .error e)) := by
  obtain ⟨h1, h2⟩ := valueMapHas_inBoolKeys v
  constructor
  · intro h
    rw [dumpF_boolean_eq, loadF_boolean_eq, h1 h]
    exact ⟨rfl, rfl⟩
  · intro h
    rcases h2 h with hok | ⟨e, he⟩
    · rw [dumpF_boolean_eq, loadF_boolean_eq, hok]
      exact ⟨⟨.valueError, rfl⟩, ⟨.parseError, rfl⟩⟩
    · rw [dumpF_boolean_eq, loadF_boolean_eq, he]
      exact ⟨⟨e, rfl⟩, ⟨e, rfl⟩⟩

/-- C9 witness: the float `1.0` is in the value set and dump/load return
`bool(1.0) = True`; the integer `2` is outside and both raise. -/
theorem boolean_value_map_witness :
    (dumpF [] .boolean (.vfloat 1) = .ok (.vbool (pyBool (.vfloat 1))) ∧
      loadF [] .boolean (.vfloat 1) = .ok (.vbool (pyBool (.vfloat 1)))) ∧
    ((∃ e, dumpF [] .boolean (.vint 2) = .error e) ∧
      (∃ e, loadF [] .boolean (.vint 2) = .error e)) :=
  ⟨(boolean_value_map [] (.vfloat 1)).1 (by rfl),
   (boolean_value_map [] (.vint 2)).2 (by rfl)⟩

/-! ## Claim C10: `load_json_dct` pops the schema tag in place -/

/-- C10: deserialization mutates its input tree.  When the reserved
`"$schema"` key is present, `load_json_dct` hands back the caller's
dictionary with exactly that key removed and every other entry unchanged
— both when an explicit schema argument is supplied and when the schema
is resolved through the store. -/
theorem schema_tag_popped (env : Env) (dct : List (String × PyVal))
    (record_store : Option Store) (auto_reg : Store) (s : RecordSchema)
    (h : hasKey dct SCHEMA_FIELD_NAME = true) :
    (load_json_dct env dct record_store auto_reg (some s)).2 =
      dct.filter (fun p => p.1 != SCHEMA_FIELD_NAME) ∧
    (load_json_dct env dct record_store auto_reg none).2 =
      dct.filter (fun p => p.1 != SCHEMA_FIELD_NAME) := by
  constructor
  · simp [load_json_dct, dpop, h]
  · obtain ⟨nv, hnv⟩ : ∃ nv, lookupVal dct SCHEMA_FIELD_NAME = some nv := by
      have h2 := lookupVal_isSome_iff_hasKey dct SCHEMA_FIELD_NAME
      rw [h] at h2
      exact Option.isSome_iff_exists.mp h2
    unfold load_json_dct dpop
    rw [hnv]
    cases nv
    case vstr name =>
      cases hsg : store_get (record_store.getD auto_reg) name <;> simp [hsg]
    all_goals rfl

/-- C10 witness: a concrete dictionary tagged `"$schema"` comes back with
the tag removed and the field entry intact, on both paths. -/
theorem schema_tag_popped_witness :
    (load_json_dct [] [("$schema", .vstr "S"), ("x", .vint 1)] none []
      (some c2Schema)).2 = [("x", .vint 1)] ∧
    (load_json_dct [] [("$schema", .vstr "S"), ("x", .vint 1)] none []
      none).2 = [("x", .vint 1)] := by
  have h := schema_tag_popped [] [("$schema", .vstr "S"), ("x", .vint 1)]
    none [] c2Schema (by rfl)
  exact ⟨by rw [h.1]; rfl, by rw [h.2]; rfl⟩

end Pyschema
